import Mathlib

/-!
Verification of the Hermes HBC debug-information codec
(`lib/BCGen/HBC/DebugInfo.cpp`): the signed-LEB128 delta encoding of
source locations produced by `DebugInfoGenerator`, the matching
`FunctionDebugInfoDeserializer` cursor, and the query functions of
`DebugInfo`.

Byte buffers are `List Nat` (each element a `uint8_t` value), machine
integers are `Nat`/`Int` with explicit reductions modulo `2^32` where
the C code performs `uint32_t` arithmetic.  Fallible decoding returns
`Option`; the C code instead asserts on malformed input, which the same
process is assumed never to produce.
-/

namespace HermesDebug

/-- The modulus of `uint32_t` arithmetic. -/
def u32Mod : Int := 4294967296

/-- Conversion of an `int64_t` value to `uint32_t`, as performed by the C
casts in the decoder (reduce modulo `2^32`, nonnegative result). -/
def u32ofInt (v : Int) : Nat := (v % u32Mod).toNat

/-- The C pattern `u32 += int64`: widen, add, truncate back to 32 bits. -/
def u32add (a : Nat) (d : Int) : Nat := u32ofInt ((a : Int) + d)

/-- Wrap an integer to the value range of `int32_t` (two's complement). -/
def asInt32 (d : Int) : Int := (d + 2147483648) % u32Mod - 2147483648

/-- Modelled from the spec (§4.3, the `delta` helper declared in
`DebugInfo.h`, which is not under `src/`): the delta of two `uint32_t`
fields as an `int32_t`. -/
def delta32 (next prev : Nat) : Int := asInt32 ((next : Int) - (prev : Int))

/-- Modelled from the spec (§4.1, `appendSignedLEB128` of
`hermes/Support/LEB128.h`, not under `src/`): one encoding step.  Seven
payload bits per byte, high bit set when more bytes follow, final byte
sign-extended from bit 6.  `fuel` only forces termination; it is
irrelevant once larger than `v.natAbs`. -/
def encodeSLEB128Go : Nat → Int → List Nat
  | 0, _ => []
  | fuel + 1, v =>
    let byte : Nat := (v % 128).toNat
    let v2 : Int := v / 128
    if (v2 = 0 ∧ byte < 64) ∨ (v2 = -1 ∧ 64 ≤ byte) then [byte]
    else (byte + 128) :: encodeSLEB128Go fuel v2

/-- Modelled from the spec (§4.1): signed LEB128 encoding of an integer. -/
def encodeSLEB128 (v : Int) : List Nat := encodeSLEB128Go (v.natAbs + 1) v

/-- Modelled from the spec (§4.1, `readSignedLEB128`): decode a signed
LEB128 integer from the front of a byte list, returning the value and
the number of bytes consumed, or `none` if the buffer ends first. -/
def readSLEB128 : List Nat → Option (Int × Nat)
  | [] => none
  | b :: rest =>
    let b2 := b % 256
    if b2 < 128 then some (if b2 < 64 then (b2 : Int) else (b2 : Int) - 128, 1)
    else
      match readSLEB128 rest with
      | none => none
      | some (v, n) => some (v * 128 + ((b2 : Int) - 128), n + 1)

theorem encodeSLEB128Go_natAbs_lt (v : Int)
    (h : ¬((v / 128 = 0 ∧ (v % 128).toNat < 64) ∨ (v / 128 = -1 ∧ 64 ≤ (v % 128).toNat))) :
    (v / 128).natAbs < v.natAbs := by
  omega

theorem encodeSLEB128Go_congr :
    ∀ (f1 f2 : Nat) (v : Int), v.natAbs < f1 → v.natAbs < f2 →
      encodeSLEB128Go f1 v = encodeSLEB128Go f2 v := by
  intro f1
  induction f1 with
  | zero => intro f2 v h1 _; omega
  | succ g ih =>
    intro f2 v h1 h2
    cases f2 with
    | zero => omega
    | succ g2 =>
      simp only [encodeSLEB128Go]
      by_cases hc : (v / 128 = 0 ∧ (v % 128).toNat < 64) ∨ (v / 128 = -1 ∧ 64 ≤ (v % 128).toNat)
      · rw [if_pos hc, if_pos hc]
      · have hlt := encodeSLEB128Go_natAbs_lt v hc
        rw [if_neg hc, if_neg hc, ih g2 (v / 128) (by omega) (by omega)]

theorem encodeSLEB128Go_fuel (fuel : Nat) (v : Int) (h : v.natAbs < fuel) :
    encodeSLEB128Go fuel v = encodeSLEB128 v :=
  encodeSLEB128Go_congr fuel (v.natAbs + 1) v h (Nat.lt_succ_self _)

/-- One-step unfolding of `encodeSLEB128`, independent of the fuel. -/
theorem encodeSLEB128_step (v : Int) :
    encodeSLEB128 v =
      if (v / 128 = 0 ∧ (v % 128).toNat < 64) ∨ (v / 128 = -1 ∧ 64 ≤ (v % 128).toNat)
      then [(v % 128).toNat]
      else ((v % 128).toNat + 128) :: encodeSLEB128 (v / 128) := by
  by_cases hc : (v / 128 = 0 ∧ (v % 128).toNat < 64) ∨ (v / 128 = -1 ∧ 64 ≤ (v % 128).toNat)
  · rw [encodeSLEB128]
    simp only [encodeSLEB128Go, hc, ite_true, if_pos]
  · have hlt := encodeSLEB128Go_natAbs_lt v hc
    rw [encodeSLEB128]
    simp only [encodeSLEB128Go, hc, ite_false]
    rw [encodeSLEB128Go_fuel v.natAbs (v / 128) hlt]

theorem encodeSLEB128_length_pos (v : Int) : 0 < (encodeSLEB128 v).length := by
  rw [encodeSLEB128_step v]
  by_cases hc : (v / 128 = 0 ∧ (v % 128).toNat < 64) ∨ (v / 128 = -1 ∧ 64 ≤ (v % 128).toNat) <;>
    simp [hc]

/-- Appending then reading a signed LEB128 value is the identity, and
consumes exactly the encoded bytes (spec §4.1). -/
theorem readSLEB128_encode (v : Int) (rest : List Nat) :
    readSLEB128 (encodeSLEB128 v ++ rest) = some (v, (encodeSLEB128 v).length) := by
  have main : ∀ fuel w (r : List Nat), w.natAbs < fuel →
      readSLEB128 (encodeSLEB128 w ++ r) = some (w, (encodeSLEB128 w).length) := by
    intro fuel
    induction fuel with
    | zero => intro w r h; omega
    | succ f ih =>
      intro w r h
      rw [encodeSLEB128_step w]
      by_cases hc : (w / 128 = 0 ∧ (w % 128).toNat < 64) ∨ (w / 128 = -1 ∧ 64 ≤ (w % 128).toNat)
      · rw [if_pos hc]
        simp only [List.cons_append, List.nil_append, readSLEB128]
        have hb : (w % 128).toNat % 256 = (w % 128).toNat := by omega
        rw [hb, if_pos (by omega : (w % 128).toNat < 128)]
        rcases hc with ⟨h0, hsmall⟩ | ⟨hm1, hbig⟩
        · rw [if_pos hsmall]
          have hw : ((w % 128).toNat : Int) = w := by omega
          rw [hw]
          rfl
        · rw [if_neg (by omega : ¬ (w % 128).toNat < 64)]
          have hw : ((w % 128).toNat : Int) - 128 = w := by omega
          rw [hw]
          rfl
      · have hlt := encodeSLEB128Go_natAbs_lt w hc
        rw [if_neg hc]
        simp only [List.cons_append, readSLEB128, List.append_eq]
        have hb : ((w % 128).toNat + 128) % 256 = (w % 128).toNat + 128 := by omega
        rw [hb, if_neg (by omega : ¬ (w % 128).toNat + 128 < 128)]
        rw [ih (w / 128) r (by omega)]
        simp only [List.length_cons, Option.some.injEq, Prod.mk.injEq]
        refine ⟨?_, trivial⟩
        push_cast
        omega
  exact main (v.natAbs + 1) v rest (Nat.lt_succ_self _)

theorem readSLEB128_bounds {l : List Nat} {v : Int} {n : Nat}
    (h : readSLEB128 l = some (v, n)) : 1 ≤ n ∧ n ≤ l.length := by
  induction l generalizing v n with
  | nil => simp [readSLEB128] at h
  | cons b rest ih =>
    rw [readSLEB128] at h
    by_cases hb : b % 256 < 128
    · simp only [hb, ite_true, if_pos, Option.some.injEq, Prod.mk.injEq] at h
      simp [← h.2]
    · simp only [hb, ite_false] at h
      cases hr : readSLEB128 rest with
      | none => rw [hr] at h; simp at h
      | some p =>
        rcases p with ⟨w, m⟩
        rw [hr] at h
        simp only [Option.some.injEq, Prod.mk.injEq] at h
        have := ih hr
        simp only [List.length_cons]
        omega

/-- Modelled from the spec (§3; the struct is declared in `DebugInfo.h`,
not under `src/`): an in-memory source location.  All fields are
`uint32_t`, value-initialized to 0. -/
structure DebugSourceLocation where
  address : Nat := 0
  line : Nat := 0
  column : Nat := 0
  statement : Nat := 0
  filenameId : Nat := 0
  sourceMappingUrlId : Nat := 0
deriving DecidableEq, Repr

/-- Modelled from the spec (§3): a file region of the `files_` table. -/
structure DebugFileRegion where
  fromAddress : Nat
  filenameId : Nat
  sourceMappingUrlId : Nat
deriving DecidableEq, Repr

/-- Result record of `DebugInfo::getAddressForLocation`. -/
structure DebugSearchResult where
  functionIndex : Nat
  address : Nat
  line : Nat
  column : Nat
deriving DecidableEq, Repr

/-- The read-side artifact: file-region table, split offset between the
sources and lexical views, and the combined byte blob
(`DebugInfo` of `DebugInfo.cpp`). -/
structure DebugInfo where
  files : List DebugFileRegion
  lexicalDataOffset : Nat
  data : List Nat
deriving DecidableEq, Repr

/-- The suffix of the combined blob holding lexical data
(`DebugInfo::lexicalData`). -/
def DebugInfo.lexData (d : DebugInfo) : List Nat := d.data.drop d.lexicalDataOffset

/-- The state of a `FunctionDebugInfoDeserializer`: the borrowed data,
the cursor offset, the decoded function index and the current location. -/
structure FDID where
  data : List Nat
  offset : Nat
  functionIndex : Nat
  current : DebugSourceLocation
deriving DecidableEq, Repr

/-- The constructor `FunctionDebugInfoDeserializer(data, offset)`: decode
the function index and the starting line and column (DebugInfo.cpp lines
23 to 28).  `none` models an assertion failure inside
`readSignedLEB128` on truncated data. -/
def FDID.init (data : List Nat) (offset : Nat) : Option FDID :=
  match readSLEB128 (data.drop offset) with
  | none => none
  | some (fi, n1) =>
    match readSLEB128 (data.drop (offset + n1)) with
    | none => none
    | some (l, n2) =>
      match readSLEB128 (data.drop (offset + n1 + n2)) with
      | none => none
      | some (c, n3) =>
        some { data := data, offset := offset + n1 + n2 + n3,
               functionIndex := u32ofInt fi,
               current := { address := 0, line := u32ofInt l, column := u32ofInt c,
                            statement := 0, filenameId := 0, sourceMappingUrlId := 0 } }

/-- Advance the current location by the decoded deltas, with `uint32_t`
wrap-around (DebugInfo.cpp lines 44 to 47). -/
def DebugSourceLocation.step (c : DebugSourceLocation)
    (ad ld cd sd : Int) : DebugSourceLocation :=
  { c with address := u32add c.address ad, line := u32add c.line ld,
           column := u32add c.column cd, statement := u32add c.statement sd }

/-- One step of `FunctionDebugInfoDeserializer::next` (DebugInfo.cpp
lines 32 to 49).  `some (none, s)` is the terminator case (`addressDelta
== -1`), `some (some loc, s)` yields the next location, `none` models an
assertion failure on truncated data. -/
def FDID.next (s : FDID) : Option (Option DebugSourceLocation × FDID) :=
  match readSLEB128 (s.data.drop s.offset) with
  | none => none
  | some (ad, n1) =>
    if ad = -1 then some (none, { s with offset := s.offset + n1 })
    else
      match readSLEB128 (s.data.drop (s.offset + n1)) with
      | none => none
      | some (ld, n2) =>
        match readSLEB128 (s.data.drop (s.offset + n1 + n2)) with
        | none => none
        | some (cd, n3) =>
          if ld % 2 = 1 then
            match readSLEB128 (s.data.drop (s.offset + n1 + n2 + n3)) with
            | none => none
            | some (sd, n4) =>
              let cur := s.current.step ad (ld / 2) cd sd
              some (some cur, { s with offset := s.offset + n1 + n2 + n3 + n4, current := cur })
          else
            let cur := s.current.step ad (ld / 2) cd 0
            some (some cur, { s with offset := s.offset + n1 + n2 + n3, current := cur })

theorem readSLEB128_drop_some {data : List Nat} {off : Nat} {v : Int} {n : Nat}
    (h : readSLEB128 (data.drop off) = some (v, n)) :
    1 ≤ n ∧ off + n ≤ data.length := by
  have hb := readSLEB128_bounds h
  have hd : (data.drop off).length = data.length - off := List.length_drop off data
  have hoff : off < data.length := by
    by_contra hcon
    have : data.drop off = [] := List.drop_eq_nil_of_le (by omega)
    rw [this] at h
    simp [readSLEB128] at h
  omega

/-- `next` preserves the data, strictly advances the offset, and only
succeeds while the cursor is inside the data. -/
theorem FDID.next_progress {s : FDID} {r : Option DebugSourceLocation × FDID}
    (h : s.next = some r) :
    r.2.data = s.data ∧ s.offset < r.2.offset ∧ r.2.offset ≤ s.data.length ∧
      r.2.functionIndex = s.functionIndex := by
  rw [FDID.next] at h
  cases h1 : readSLEB128 (s.data.drop s.offset) with
  | none => simp [h1] at h
  | some p1 =>
    rcases p1 with ⟨ad, n1⟩
    simp only [h1] at h
    have hb1 := readSLEB128_drop_some h1
    by_cases had : ad = -1
    · rw [if_pos had] at h
      simp only [Option.some.injEq] at h
      subst h
      refine ⟨rfl, ?_, ?_, rfl⟩ <;> dsimp only <;> omega
    · rw [if_neg had] at h
      cases h2 : readSLEB128 (s.data.drop (s.offset + n1)) with
      | none => simp [h2] at h
      | some p2 =>
        rcases p2 with ⟨ld, n2⟩
        simp only [h2] at h
        have hb2 := readSLEB128_drop_some h2
        cases h3 : readSLEB128 (s.data.drop (s.offset + n1 + n2)) with
        | none => simp [h3] at h
        | some p3 =>
          rcases p3 with ⟨cd, n3⟩
          simp only [h3] at h
          have hb3 := readSLEB128_drop_some h3
          by_cases hld : ld % 2 = 1
          · rw [if_pos hld] at h
            cases h4 : readSLEB128 (s.data.drop (s.offset + n1 + n2 + n3)) with
            | none => simp [h4] at h
            | some p4 =>
              rcases p4 with ⟨sd, n4⟩
              simp only [h4] at h
              have hb4 := readSLEB128_drop_some h4
              simp only [Option.some.injEq] at h
              subst h
              refine ⟨rfl, ?_, ?_, rfl⟩ <;> dsimp only <;> omega
          · rw [if_neg hld] at h
            simp only [Option.some.injEq] at h
            subst h
            refine ⟨rfl, ?_, ?_, rfl⟩ <;> dsimp only <;> omega

/-- Projection of a location onto the four fields carried by the
location stream; `filenameId` and `sourceMappingUrlId` are zeroed, as in
a value-initialized `DebugSourceLocation`. -/
def trackedOnly (l : DebugSourceLocation) : DebugSourceLocation :=
  { address := l.address, line := l.line, column := l.column, statement := l.statement,
    filenameId := 0, sourceMappingUrlId := 0 }

/-- All `uint32_t` fields of a location that take part in delta
arithmetic are in range. -/
def locWF (l : DebugSourceLocation) : Prop :=
  l.address < 4294967296 ∧ l.line < 4294967296 ∧ l.column < 4294967296 ∧
    l.statement < 4294967296

instance (l : DebugSourceLocation) : Decidable (locWF l) := by
  unfold locWF
  infer_instance

/-- The statement delta of a record (DebugInfo.cpp line 366). -/
def sdeltaOf (prev next : DebugSourceLocation) : Int := delta32 next.statement prev.statement

/-- The tagged line delta: line delta shifted left once, with the
statement-presence bit in the least significant position
(DebugInfo.cpp line 372). -/
def taggedLineDelta (prev next : DebugSourceLocation) : Int :=
  ((next.line : Int) - (prev.line : Int)) * 2 + (if sdeltaOf prev next ≠ 0 then 1 else 0)

/-- The bytes emitted for one delta record in the loop of
`appendSourceLocations` (DebugInfo.cpp lines 362 to 378). -/
def recordBytes (prev next : DebugSourceLocation) : List Nat :=
  encodeSLEB128 (delta32 next.address prev.address) ++
    encodeSLEB128 (taggedLineDelta prev next) ++
    encodeSLEB128 (delta32 next.column prev.column) ++
    (if sdeltaOf prev next ≠ 0 then encodeSLEB128 (sdeltaOf prev next) else [])

/-- The bytes of a function header: function index, start line, start
column (DebugInfo.cpp lines 350 to 352). -/
def headerBytes (functionIndex : Nat) (start : DebugSourceLocation) : List Nat :=
  encodeSLEB128 (functionIndex : Int) ++ encodeSLEB128 (start.line : Int) ++
    encodeSLEB128 (start.column : Int)

/-- The bytes of all delta records of a function. -/
def encBody : DebugSourceLocation → List DebugSourceLocation → List Nat
  | _, [] => []
  | prev, next :: rest => recordBytes prev next ++ encBody next rest

/-- The full byte stream of one function: header, delta records,
terminator `-1`. -/
def encFunc (start : DebugSourceLocation) (functionIndex : Nat)
    (offsets : List DebugSourceLocation) : List Nat :=
  headerBytes functionIndex start ++ encBody start offsets ++ encodeSLEB128 (-1)

/-- Decodability of a location chain: every location is in `uint32_t`
range and no consecutive address delta collides with the `-1`
end-of-function sentinel. -/
def chainWF : DebugSourceLocation → List DebugSourceLocation → Prop
  | _, [] => True
  | prev, next :: rest =>
      locWF next ∧ delta32 next.address prev.address ≠ -1 ∧ chainWF next rest

def chainWF.decAux :
    (p : DebugSourceLocation) → (os : List DebugSourceLocation) → Decidable (chainWF p os)
  | _, [] => isTrue trivial
  | p, n :: rest =>
    letI := chainWF.decAux n rest
    inferInstanceAs (Decidable (locWF n ∧ delta32 n.address p.address ≠ -1 ∧ chainWF n rest))

instance (p : DebugSourceLocation) (os : List DebugSourceLocation) :
    Decidable (chainWF p os) := chainWF.decAux p os

theorem u32ofInt_coe (n : Nat) (h : n < 4294967296) : u32ofInt (n : Int) = n := by
  unfold u32ofInt u32Mod
  omega

theorem u32add_delta32 (a b : Nat) (hb : b < 4294967296) : u32add a (delta32 b a) = b := by
  unfold u32add u32ofInt delta32 asInt32 u32Mod
  omega

theorem u32add_zero (a : Nat) (ha : a < 4294967296) : u32add a 0 = a := by
  unfold u32add u32ofInt u32Mod
  omega

theorem u32add_sub (a b : Nat) (hb : b < 4294967296) :
    u32add a ((b : Int) - (a : Int)) = b := by
  unfold u32add u32ofInt u32Mod
  omega

theorem delta32_eq_zero_iff (a b : Nat) (ha : a < 4294967296) (hb : b < 4294967296) :
    delta32 a b = 0 ↔ a = b := by
  unfold delta32 asInt32 u32Mod
  omega

theorem taggedLineDelta_ediv (p n : DebugSourceLocation) :
    taggedLineDelta p n / 2 = (n.line : Int) - (p.line : Int) := by
  unfold taggedLineDelta
  by_cases hs : sdeltaOf p n ≠ 0
  · rw [if_pos hs]
    omega
  · rw [if_neg hs]
    omega

theorem taggedLineDelta_parity (p n : DebugSourceLocation) :
    (taggedLineDelta p n % 2 = 1) ↔ sdeltaOf p n ≠ 0 := by
  unfold taggedLineDelta
  by_cases hs : sdeltaOf p n ≠ 0
  · rw [if_pos hs]
    constructor
    · intro _
      exact hs
    · intro _
      omega
  · rw [if_neg hs]
    push_neg at hs
    constructor
    · intro h
      exfalso
      omega
    · intro h
      exact absurd hs h

theorem drop_one (l1 l2 : List Nat) : (l1 ++ l2).drop l1.length = l2 :=
  List.drop_left l1 l2

theorem drop_two (l1 l2 l3 : List Nat) :
    (l1 ++ (l2 ++ l3)).drop (l1.length + l2.length) = l3 := by
  rw [← List.append_assoc, ← List.length_append]
  exact List.drop_left _ _

theorem drop_three (l1 l2 l3 l4 : List Nat) :
    (l1 ++ (l2 ++ (l3 ++ l4))).drop (l1.length + l2.length + l3.length) = l4 := by
  rw [← List.append_assoc, ← List.append_assoc, ← List.length_append, ← List.length_append]
  exact List.drop_left _ _

theorem drop_four (l1 l2 l3 l4 l5 : List Nat) :
    (l1 ++ (l2 ++ (l3 ++ (l4 ++ l5)))).drop (l1.length + l2.length + l3.length + l4.length) = l5 := by
  rw [← List.append_assoc, ← List.append_assoc, ← List.append_assoc,
    ← List.length_append, ← List.length_append, ← List.length_append]
  exact List.drop_left _ _

/-- Overwrite the four tracked fields of `c` with those of `n`. -/
def DebugSourceLocation.withTracked (c n : DebugSourceLocation) : DebugSourceLocation :=
  { c with address := n.address, line := n.line, column := n.column, statement := n.statement }

/-- Decoding one encoded delta record advances the four tracked fields
of the current location to those of `next` and moves the cursor past the
record. -/
theorem FDID.next_record {s : FDID} (pre post : List Nat) (p n : DebugSourceLocation)
    (hdata : s.data = pre ++ recordBytes p n ++ post)
    (hoff : s.offset = pre.length)
    (haddr : s.current.address = p.address) (hline : s.current.line = p.line)
    (hcol : s.current.column = p.column) (hstmt : s.current.statement = p.statement)
    (hwfp : locWF p) (hwfn : locWF n)
    (hne : delta32 n.address p.address ≠ -1) :
    s.next = some (some (s.current.withTracked n),
      { s with offset := s.offset + (recordBytes p n).length, current := s.current.withTracked n }) := by
  rcases hwfp with ⟨hpa, hpl, hpc, hps⟩
  rcases hwfn with ⟨hna, hnl, hnc, hns⟩
  by_cases hsd : sdeltaOf p n ≠ 0
  · have hshape : s.data = pre ++ (encodeSLEB128 (delta32 n.address p.address) ++
        (encodeSLEB128 (taggedLineDelta p n) ++ (encodeSLEB128 (delta32 n.column p.column) ++
        (encodeSLEB128 (sdeltaOf p n) ++ post)))) := by
      rw [hdata]
      simp [recordBytes, hsd, List.append_assoc]
    have r1 : readSLEB128 (s.data.drop s.offset) =
        some (delta32 n.address p.address, (encodeSLEB128 (delta32 n.address p.address)).length) := by
      rw [hshape, hoff, drop_one]
      exact readSLEB128_encode _ _
    have r2 : readSLEB128 (s.data.drop
          (s.offset + (encodeSLEB128 (delta32 n.address p.address)).length)) =
        some (taggedLineDelta p n, (encodeSLEB128 (taggedLineDelta p n)).length) := by
      rw [hshape, hoff, drop_two]
      exact readSLEB128_encode _ _
    have r3 : readSLEB128 (s.data.drop
          (s.offset + (encodeSLEB128 (delta32 n.address p.address)).length +
            (encodeSLEB128 (taggedLineDelta p n)).length)) =
        some (delta32 n.column p.column, (encodeSLEB128 (delta32 n.column p.column)).length) := by
      rw [hshape, hoff, drop_three]
      exact readSLEB128_encode _ _
    have r4 : readSLEB128 (s.data.drop
          (s.offset + (encodeSLEB128 (delta32 n.address p.address)).length +
            (encodeSLEB128 (taggedLineDelta p n)).length +
            (encodeSLEB128 (delta32 n.column p.column)).length)) =
        some (sdeltaOf p n, (encodeSLEB128 (sdeltaOf p n)).length) := by
      rw [hshape, hoff, drop_four]
      exact readSLEB128_encode _ _
    have hcur : s.current.step (delta32 n.address p.address) (taggedLineDelta p n / 2)
        (delta32 n.column p.column) (sdeltaOf p n) = s.current.withTracked n := by
      unfold DebugSourceLocation.step sdeltaOf DebugSourceLocation.withTracked
      rw [haddr, hline, hcol, hstmt, taggedLineDelta_ediv]
      rw [u32add_delta32 _ _ hna, u32add_sub _ _ hnl, u32add_delta32 _ _ hnc,
        u32add_delta32 _ _ hns]
    have hlen : (recordBytes p n).length =
        (encodeSLEB128 (delta32 n.address p.address)).length +
          (encodeSLEB128 (taggedLineDelta p n)).length +
          (encodeSLEB128 (delta32 n.column p.column)).length +
          (encodeSLEB128 (sdeltaOf p n)).length := by
      simp [recordBytes, hsd]
      omega
    rw [FDID.next]
    simp only [r1]
    rw [if_neg hne]
    simp only [r2, r3]
    rw [if_pos ((taggedLineDelta_parity p n).mpr hsd)]
    have hofs : s.offset + (encodeSLEB128 (delta32 n.address p.address)).length +
        (encodeSLEB128 (taggedLineDelta p n)).length +
        (encodeSLEB128 (delta32 n.column p.column)).length +
        (encodeSLEB128 (sdeltaOf p n)).length = s.offset + (recordBytes p n).length := by
      rw [hlen]
      omega
    simp only [r4, hcur, hofs]
  · have hsz : sdeltaOf p n = 0 := by omega
    have hshape : s.data = pre ++ (encodeSLEB128 (delta32 n.address p.address) ++
        (encodeSLEB128 (taggedLineDelta p n) ++ (encodeSLEB128 (delta32 n.column p.column) ++
        post))) := by
      rw [hdata]
      simp [recordBytes, hsz, List.append_assoc]
    have r1 : readSLEB128 (s.data.drop s.offset) =
        some (delta32 n.address p.address, (encodeSLEB128 (delta32 n.address p.address)).length) := by
      rw [hshape, hoff, drop_one]
      exact readSLEB128_encode _ _
    have r2 : readSLEB128 (s.data.drop
          (s.offset + (encodeSLEB128 (delta32 n.address p.address)).length)) =
        some (taggedLineDelta p n, (encodeSLEB128 (taggedLineDelta p n)).length) := by
      rw [hshape, hoff, drop_two]
      exact readSLEB128_encode _ _
    have r3 : readSLEB128 (s.data.drop
          (s.offset + (encodeSLEB128 (delta32 n.address p.address)).length +
            (encodeSLEB128 (taggedLineDelta p n)).length)) =
        some (delta32 n.column p.column, (encodeSLEB128 (delta32 n.column p.column)).length) := by
      rw [hshape, hoff, drop_three]
      exact readSLEB128_encode _ _
    have hstmteq : n.statement = p.statement :=
      (delta32_eq_zero_iff n.statement p.statement hns hps).mp hsz
    have hcur : s.current.step (delta32 n.address p.address) (taggedLineDelta p n / 2)
        (delta32 n.column p.column) 0 = s.current.withTracked n := by
      unfold DebugSourceLocation.step DebugSourceLocation.withTracked
      rw [haddr, hline, hcol, hstmt, taggedLineDelta_ediv]
      rw [u32add_delta32 _ _ hna, u32add_sub _ _ hnl, u32add_delta32 _ _ hnc,
        u32add_zero _ hps, hstmteq]
    have hlen : (recordBytes p n).length =
        (encodeSLEB128 (delta32 n.address p.address)).length +
          (encodeSLEB128 (taggedLineDelta p n)).length +
          (encodeSLEB128 (delta32 n.column p.column)).length := by
      simp [recordBytes, hsz]
      omega
    have hpar : ¬ taggedLineDelta p n % 2 = 1 := by
      intro hp
      exact hsd ((taggedLineDelta_parity p n).mp hp)
    rw [FDID.next]
    simp only [r1]
    rw [if_neg hne]
    simp only [r2, r3]
    rw [if_neg hpar]
    have hofs : s.offset + (encodeSLEB128 (delta32 n.address p.address)).length +
        (encodeSLEB128 (taggedLineDelta p n)).length +
        (encodeSLEB128 (delta32 n.column p.column)).length = s.offset + (recordBytes p n).length := by
      rw [hlen]
      omega
    simp only [hcur, hofs]

/-- Decoding at a terminator yields `none` and leaves the cursor on the
byte past the terminator. -/
theorem FDID.next_term {s : FDID} (pre post : List Nat)
    (hdata : s.data = pre ++ encodeSLEB128 (-1) ++ post)
    (hoff : s.offset = pre.length) :
    s.next = some (none, { s with offset := s.offset + (encodeSLEB128 (-1)).length }) := by
  have r1 : readSLEB128 (s.data.drop s.offset) =
      some (-1, (encodeSLEB128 (-1)).length) := by
    rw [hdata, hoff]
    rw [List.append_assoc, drop_one]
    exact readSLEB128_encode _ _
  rw [FDID.next]
  simp only [r1]
  simp

/-- Constructing a deserializer at an encoded function header decodes
the function index and the start line and column; the current address
and statement are zero. -/
theorem FDID.init_enc (data pre rest : List Nat) (fi : Nat) (start : DebugSourceLocation)
    (hdata : data = pre ++ headerBytes fi start ++ rest)
    (hfi : fi < 4294967296) (hl : start.line < 4294967296) (hc : start.column < 4294967296) :
    FDID.init data pre.length =
      some { data := data, offset := pre.length + (headerBytes fi start).length,
             functionIndex := fi,
             current := { address := 0, line := start.line, column := start.column,
                          statement := 0, filenameId := 0, sourceMappingUrlId := 0 } } := by
  have hshape : data = pre ++ (encodeSLEB128 (fi : Int) ++
      (encodeSLEB128 (start.line : Int) ++ (encodeSLEB128 (start.column : Int) ++ rest))) := by
    rw [hdata]
    simp [headerBytes, List.append_assoc]
  have r1 : readSLEB128 (data.drop pre.length) =
      some ((fi : Int), (encodeSLEB128 (fi : Int)).length) := by
    rw [hshape, drop_one]
    exact readSLEB128_encode _ _
  have r2 : readSLEB128 (data.drop (pre.length + (encodeSLEB128 (fi : Int)).length)) =
      some ((start.line : Int), (encodeSLEB128 (start.line : Int)).length) := by
    rw [hshape, drop_two]
    exact readSLEB128_encode _ _
  have r3 : readSLEB128 (data.drop (pre.length + (encodeSLEB128 (fi : Int)).length +
        (encodeSLEB128 (start.line : Int)).length)) =
      some ((start.column : Int), (encodeSLEB128 (start.column : Int)).length) := by
    rw [hshape, drop_three]
    exact readSLEB128_encode _ _
  have hofs : pre.length + (encodeSLEB128 (fi : Int)).length +
      (encodeSLEB128 (start.line : Int)).length + (encodeSLEB128 (start.column : Int)).length =
      pre.length + (headerBytes fi start).length := by
    simp [headerBytes]
    omega
  rw [FDID.init]
  simp only [r1, r2, r3, hofs, u32ofInt_coe fi hfi, u32ofInt_coe start.line hl,
    u32ofInt_coe start.column hc]

/-- Write-side state of `DebugInfoGenerator`: the file-region table and
the two byte buffers.  The filename string table and the `validData`
flag are not modelled; the flag only gates assertions. -/
structure DebugInfoGenerator where
  files : List DebugFileRegion
  sourcesData : List Nat
  lexicalData : List Nat
deriving DecidableEq, Repr

/-- Offset of the shared empty lexical record. -/
def kEmptyLexicalDataOffset : Nat := 0

/-- The generator constructor (DebugInfo.cpp lines 386 to 394): start
with empty tables and write the shared empty lexical record,
`parent = -1` then `count = 0`. -/
def DebugInfoGenerator.base : DebugInfoGenerator :=
  { files := [], sourcesData := [],
    lexicalData := encodeSLEB128 (-1) ++ encodeSLEB128 0 }

/-- Push a region for the function start if the table is empty or its
last region names a different file (DebugInfo.cpp lines 345 to 348). -/
def pushStartRegion (files : List DebugFileRegion) (startOffset : Nat)
    (start : DebugSourceLocation) : List DebugFileRegion :=
  if files = [] ∨ (files.getLast?).map (fun f => f.filenameId) ≠ some start.filenameId then
    files ++ [{ fromAddress := startOffset, filenameId := start.filenameId,
                sourceMappingUrlId := start.sourceMappingUrlId }]
  else files

/-- The loop of `appendSourceLocations` over `offsets` (DebugInfo.cpp
lines 355 to 380): on a filename change push a region at the current
sources size carrying the start location's url id, then append the
record bytes. -/
def appendSourceLocationsLoop (startUrl : Nat) :
    DebugSourceLocation → List DebugSourceLocation → List DebugFileRegion → List Nat →
      List DebugFileRegion × List Nat
  | _, [], files, sources => (files, sources)
  | prev, next :: rest, files, sources =>
    let files2 := if next.filenameId ≠ prev.filenameId
      then files ++ [{ fromAddress := sources.length, filenameId := next.filenameId,
                       sourceMappingUrlId := startUrl }]
      else files
    appendSourceLocationsLoop startUrl next rest files2 (sources ++ recordBytes prev next)

/-- `DebugInfoGenerator::appendSourceLocations` (DebugInfo.cpp lines 331
to 384), returning the updated generator and the returned offset. -/
def appendSourceLocations (g : DebugInfoGenerator) (start : DebugSourceLocation)
    (functionIndex : Nat) (offsets : List DebugSourceLocation) :
    DebugInfoGenerator × Nat :=
  let startOffset := g.sourcesData.length
  if offsets.isEmpty then (g, startOffset)
  else
    let files0 := pushStartRegion g.files startOffset start
    let sources0 := g.sourcesData ++ headerBytes functionIndex start
    let res := appendSourceLocationsLoop start.sourceMappingUrlId start offsets files0 sources0
    ({ files := res.1, sourcesData := res.2 ++ encodeSLEB128 (-1),
       lexicalData := g.lexicalData }, startOffset)

/-- `appendString` (declared in `DebugInfo.h`; format documented at
DebugInfo.cpp lines 87 to 88): LEB-encoded length followed by the
bytes. -/
def appendString (buf : List Nat) (s : List Nat) : List Nat :=
  buf ++ encodeSLEB128 (s.length : Int) ++ s

/-- The value written for the parent function id: the id when present,
the sentinel `-1` otherwise (DebugInfo.cpp line 404). -/
def parentIdInt (parentFunc : Option Nat) : Int :=
  match parentFunc with
  | some p => (p : Int)
  | none => -1

/-- `DebugInfoGenerator::appendLexicalData` (DebugInfo.cpp lines 396 to
409). -/
def appendLexicalData (g : DebugInfoGenerator) (parentFunc : Option Nat)
    (names : List (List Nat)) : DebugInfoGenerator × Nat :=
  if parentFunc = none ∧ names = [] then (g, kEmptyLexicalDataOffset)
  else
    let startOffset := g.lexicalData.length
    let buf := g.lexicalData ++ encodeSLEB128 (parentIdInt parentFunc) ++
      encodeSLEB128 (names.length : Int)
    ({ g with lexicalData := names.foldl appendString buf }, startOffset)

/-- `DebugInfoGenerator::serializeWithMove` (DebugInfo.cpp lines 411 to
425): lexical data is concatenated after the sources data and the split
offset recorded. -/
def serializeWithMove (g : DebugInfoGenerator) : DebugInfo :=
  { files := g.files, lexicalDataOffset := g.sourcesData.length,
    data := g.sourcesData ++ g.lexicalData }

/-- Generator states reachable from construction by any sequence of
append calls. -/
inductive Reached : DebugInfoGenerator → Prop where
  | base : Reached DebugInfoGenerator.base
  | srcStep {g : DebugInfoGenerator} (start : DebugSourceLocation) (functionIndex : Nat)
      (offsets : List DebugSourceLocation) :
      Reached g → Reached (appendSourceLocations g start functionIndex offsets).1
  | lexStep {g : DebugInfoGenerator} (parentFunc : Option Nat) (names : List (List Nat)) :
      Reached g → Reached (appendLexicalData g parentFunc names).1

/-- The scan of `DebugInfo::getFilenameForAddress` (DebugInfo.cpp lines
104 to 117): remember the filename of each region whose `fromAddress`
does not exceed the query offset, stopping at the first that does. -/
def getFilenameGo : List DebugFileRegion → Nat → Option Nat → Option Nat
  | [], _, acc => acc
  | f :: rest, off, acc =>
    if f.fromAddress ≤ off then getFilenameGo rest off (some f.filenameId) else acc

def DebugInfo.getFilenameForAddress (d : DebugInfo) (debugOffset : Nat) : Option Nat :=
  getFilenameGo d.files debugOffset none

/-- The loop of `DebugInfo::getLocationForAddress` (DebugInfo.cpp lines
127 to 133).  `lastOff` is the byte offset of the record that produced
`lastLoc`.  The fuel only forces termination; any fuel exceeding the
remaining byte count gives the loop's result. -/
def glfaGo : Nat → FDID → Nat → DebugSourceLocation → Nat → Option (DebugSourceLocation × Nat)
  | 0, _, _, _, _ => none
  | fuel + 1, s, addr, lastLoc, lastOff =>
    match s.next with
    | none => none
    | some (none, _) => some (lastLoc, lastOff)
    | some (some loc, s2) =>
      if addr < loc.address then some (lastLoc, lastOff)
      else glfaGo fuel s2 addr loc s.offset

/-- `DebugInfo::getLocationForAddress` (DebugInfo.cpp lines 119 to
140). -/
def DebugInfo.getLocationForAddress (d : DebugInfo) (debugOffset offsetInFunction : Nat) :
    Option DebugSourceLocation :=
  match FDID.init d.data debugOffset with
  | none => none
  | some s =>
    match glfaGo (d.data.length + 1) s offsetInFunction s.current debugOffset with
    | none => none
    | some (lastLoc, lastOff) =>
      match d.getFilenameForAddress lastOff with
      | none => none
      | some f => some { lastLoc with address := offsetInFunction, filenameId := f }

/-- The region scan of `DebugInfo::getAddressForLocation` (DebugInfo.cpp
lines 146 to 167): find the first region with the requested filename;
its range ends at the next region's `fromAddress`, or at
`lexicalDataOffset` if it is the last region. -/
def rangeEnd (lexOff : Nat) : List DebugFileRegion → Nat
  | [] => lexOff
  | r2 :: _ => r2.fromAddress

def findFileRangeGo (lexOff fid : Nat) : List DebugFileRegion → Option (Nat × Nat)
  | [] => none
  | r :: rest =>
    if r.filenameId = fid then some (r.fromAddress, rangeEnd lexOff rest)
    else findFileRangeGo lexOff fid rest

/-- The inner loop of `getAddressForLocation` (DebugInfo.cpp lines 173
to 182): only locations produced by `next()` are match candidates. -/
def galGo : Nat → FDID → Nat → Option Nat → Option (Option DebugSearchResult × Nat)
  | 0, _, _, _ => none
  | fuel + 1, s, targetLine, targetColumn =>
    match s.next with
    | none => none
    | some (none, s2) => some (none, s2.offset)
    | some (some loc, s2) =>
      if loc.line = targetLine ∧ (targetColumn = none ∨ targetColumn = some loc.column) then
        some (some { functionIndex := s.functionIndex, address := loc.address,
                     line := loc.line, column := loc.column }, s2.offset)
      else galGo fuel s2 targetLine targetColumn

/-- The outer loop of `getAddressForLocation` (DebugInfo.cpp lines 171
to 184), iterating function deserializers until the range end. -/
def galOuterGo : Nat → List Nat → Nat → Nat → Nat → Option Nat → Option DebugSearchResult
  | 0, _, _, _, _, _ => none
  | fuel + 1, data, offset, endOff, targetLine, targetColumn =>
    if offset < endOff then
      match FDID.init data offset with
      | none => none
      | some s =>
        match galGo (data.length + 1) s targetLine targetColumn with
        | none => none
        | some (some r, _) => some r
        | some (none, off2) => galOuterGo fuel data off2 endOff targetLine targetColumn
    else none

/-- `DebugInfo::getAddressForLocation` (DebugInfo.cpp lines 142 to
187). -/
def DebugInfo.getAddressForLocation (d : DebugInfo) (filenameId targetLine : Nat)
    (targetColumn : Option Nat) : Option DebugSearchResult :=
  match findFileRangeGo d.lexicalDataOffset filenameId d.files with
  | none => none
  | some (startOff, endOff) => galOuterGo (endOff + 1) d.data startOff endOff targetLine targetColumn

/-- Run the deserializer to the terminator, collecting every location
yielded by `next()` (the usage pattern of DebugInfo.cpp line 252). -/
def drainGo : Nat → FDID → Option (List DebugSourceLocation × FDID)
  | 0, _ => none
  | fuel + 1, s =>
    match s.next with
    | none => none
    | some (none, s2) => some ([], s2)
    | some (some loc, s2) =>
      match drainGo fuel s2 with
      | none => none
      | some (locs, s3) => some (loc :: locs, s3)

def FDID.drain (s : FDID) : Option (List DebugSourceLocation × FDID) :=
  drainGo (s.data.length + 1) s

/-- `decodeString` (DebugInfo.cpp lines 84 to 102): length-prefixed byte
string.  `none` models the assert on a negative length or an
out-of-range size. -/
def decodeStringAt (data : List Nat) (offset : Nat) : Option (List Nat × Nat) :=
  match readSLEB128 (data.drop offset) with
  | none => none
  | some (strSize, n) =>
    if 0 ≤ strSize ∧ offset + n + strSize.toNat ≤ data.length then
      some ((data.drop (offset + n)).take strSize.toNat, offset + n + strSize.toNat)
    else none

def readStringsGo (data : List Nat) : Nat → Nat → Option (List (List Nat))
  | 0, _ => some []
  | k + 1, offset =>
    match decodeStringAt data offset with
    | none => none
    | some (s, off2) =>
      match readStringsGo data k off2 with
      | none => none
      | some rest => some (s :: rest)

/-- `DebugInfo::getVariableNames` (DebugInfo.cpp lines 191 to 208). -/
def DebugInfo.getVariableNames (d : DebugInfo) (offset : Nat) : Option (List (List Nat)) :=
  match readSLEB128 (d.lexData.drop offset) with
  | none => none
  | some (_, n1) =>
    match readSLEB128 (d.lexData.drop (offset + n1)) with
    | none => none
    | some (signedCount, n2) =>
      if 0 ≤ signedCount then readStringsGo d.lexData signedCount.toNat (offset + n1 + n2)
      else none

/-- `DebugInfo::getParentFunctionId` (DebugInfo.cpp lines 210 to 219):
any negative decoded value maps to `none`; otherwise the value is
converted to `uint32_t`. -/
def DebugInfo.getParentFunctionId (d : DebugInfo) (offset : Nat) : Option Nat :=
  match readSLEB128 (d.lexData.drop offset) with
  | none => none
  | some (parentId, _) => if parentId < 0 then none else some (u32ofInt parentId)

theorem recordBytes_length_pos (p n : DebugSourceLocation) : 0 < (recordBytes p n).length := by
  have h1 := encodeSLEB128_length_pos (delta32 n.address p.address)
  simp [recordBytes]
  omega

theorem trackedOnly_address (l : DebugSourceLocation) : (trackedOnly l).address = l.address := rfl

theorem trackedOnly_line (l : DebugSourceLocation) : (trackedOnly l).line = l.line := rfl

theorem trackedOnly_column (l : DebugSourceLocation) : (trackedOnly l).column = l.column := rfl

theorem trackedOnly_statement (l : DebugSourceLocation) :
    (trackedOnly l).statement = l.statement := rfl

theorem withTracked_trackedOnly (p n : DebugSourceLocation) :
    (trackedOnly p).withTracked n = trackedOnly n := rfl

/-- Draining a deserializer positioned at the records of an encoded
function yields exactly the subsequent locations (their four tracked
fields), then stops at the terminator with the cursor just past it. -/
theorem drainGo_enc (os : List DebugSourceLocation) :
    ∀ (fuel : Nat) (s : FDID) (pre post : List Nat) (p : DebugSourceLocation),
    s.data = pre ++ (encBody p os ++ (encodeSLEB128 (-1) ++ post)) →
    s.offset = pre.length →
    s.current = trackedOnly p →
    locWF p → chainWF p os →
    s.data.length - s.offset < fuel →
    drainGo fuel s = some (os.map trackedOnly,
      { s with offset := s.offset + (encBody p os).length + (encodeSLEB128 (-1)).length,
               current := trackedOnly (os.getLastD p) }) := by
  induction os with
  | nil =>
    intro fuel s pre post p hdata hoff hcur hwfp _ hfuel
    have hlenpos := encodeSLEB128_length_pos (-1)
    have hdlen : pre.length + (encodeSLEB128 (-1)).length ≤ s.data.length := by
      rw [hdata]
      simp [encBody]
    cases fuel with
    | zero => omega
    | succ f =>
      have hterm := FDID.next_term (s := s) pre post
        (by rw [hdata]; simp [encBody, List.append_assoc]) hoff
      rw [drainGo]
      simp only [hterm]
      have hofs2 : s.offset + (encBody p ([] : List DebugSourceLocation)).length +
          (encodeSLEB128 (-1)).length = s.offset + (encodeSLEB128 (-1)).length := by
        simp [encBody]
      simp only [List.map_nil, List.getLastD, hofs2, ← hcur]
  | cons n rest ih =>
    intro fuel s pre post p hdata hoff hcur hwfp hchain hfuel
    rcases hchain with ⟨hwfn, hne, hchain⟩
    have hrecpos := recordBytes_length_pos p n
    have hdlen : pre.length + (recordBytes p n).length ≤ s.data.length := by
      rw [hdata]
      simp [encBody]
    cases fuel with
    | zero => omega
    | succ f =>
      have hstep := FDID.next_record (s := s) pre
        (encBody n rest ++ (encodeSLEB128 (-1) ++ post)) p n
        (by rw [hdata]; simp [encBody, List.append_assoc]) hoff
        (by rw [hcur]; rfl) (by rw [hcur]; rfl) (by rw [hcur]; rfl) (by rw [hcur]; rfl)
        hwfp hwfn hne
      rw [hcur, withTracked_trackedOnly] at hstep
      have hrec := ih f
        { s with offset := s.offset + (recordBytes p n).length, current := trackedOnly n }
        (pre ++ recordBytes p n) post n
        (by rw [hdata]; simp [encBody, List.append_assoc])
        (by simp [hoff])
        rfl hwfn hchain (by simp; omega)
      rw [drainGo]
      simp only [hstep, hrec]
      simp only [encBody, List.map_cons, List.getLastD_cons, List.length_append,
        Option.some.injEq, Prod.mk.injEq]
      refine ⟨trivial, ?_⟩
      congr 1
      omega

/-- The byte output of the append loop is the concatenation of the
record bytes of all offsets. -/
theorem loop_sources (url : Nat) :
    ∀ (os : List DebugSourceLocation) (prev : DebugSourceLocation)
      (files : List DebugFileRegion) (sources : List Nat),
    (appendSourceLocationsLoop url prev os files sources).2 = sources ++ encBody prev os := by
  intro os
  induction os with
  | nil => intro prev files sources; simp [appendSourceLocationsLoop, encBody]
  | cons n rest ih =>
    intro prev files sources
    rw [appendSourceLocationsLoop, ih]
    simp [encBody]

/-- The append loop only appends to the file-region table. -/
theorem loop_files_append (url : Nat) :
    ∀ (os : List DebugSourceLocation) (prev : DebugSourceLocation)
      (files : List DebugFileRegion) (sources : List Nat),
    ∃ ext, (appendSourceLocationsLoop url prev os files sources).1 = files ++ ext := by
  intro os
  induction os with
  | nil => intro prev files sources; exact ⟨[], by simp [appendSourceLocationsLoop]⟩
  | cons n rest ih =>
    intro prev files sources
    rw [appendSourceLocationsLoop]
    by_cases hch : n.filenameId ≠ prev.filenameId
    · rw [if_pos hch]
      rcases ih n (files ++ [{ fromAddress := sources.length, filenameId := n.filenameId, sourceMappingUrlId := url }]) (sources ++ recordBytes prev n) with ⟨ext, hext⟩
      exact ⟨[{ fromAddress := sources.length, filenameId := n.filenameId, sourceMappingUrlId := url }] ++ ext, by rw [hext, List.append_assoc]⟩
    · rw [if_neg hch]
      exact ih n files (sources ++ recordBytes prev n)

/-- Every region's `fromAddress` is at most the given bound. -/
def filesBelow (files : List DebugFileRegion) (bound : Nat) : Prop :=
  ∀ f ∈ files, f.fromAddress ≤ bound

/-- The region table is non-decreasing in `fromAddress`. -/
def filesSorted (files : List DebugFileRegion) : Prop :=
  List.Pairwise (fun a b => a.fromAddress ≤ b.fromAddress) files

theorem filesBelow_mono {files : List DebugFileRegion} {b1 b2 : Nat}
    (h : filesBelow files b1) (hle : b1 ≤ b2) : filesBelow files b2 :=
  fun f hf => le_trans (h f hf) hle

theorem filesBelow_push {files : List DebugFileRegion} {bound : Nat} (r : DebugFileRegion)
    (h : filesBelow files bound) (hr : r.fromAddress ≤ bound) :
    filesBelow (files ++ [r]) bound := by
  intro f hf
  rcases List.mem_append.mp hf with hf | hf
  · exact h f hf
  · simp at hf
    rw [hf]
    exact hr

theorem filesSorted_push {files : List DebugFileRegion} {bound : Nat} (r : DebugFileRegion)
    (hs : filesSorted files) (hb : filesBelow files bound) (hr : bound ≤ r.fromAddress) :
    filesSorted (files ++ [r]) := by
  rw [filesSorted, List.pairwise_append]
  refine ⟨hs, List.pairwise_singleton _ _, ?_⟩
  intro a ha b hb2
  simp at hb2
  rw [hb2]
  exact le_trans (hb a ha) hr

/-- The append loop preserves sortedness and boundedness of the region
table relative to the growing sources buffer. -/
theorem loop_invariant (url : Nat) :
    ∀ (os : List DebugSourceLocation) (prev : DebugSourceLocation)
      (files : List DebugFileRegion) (sources : List Nat),
    filesSorted files → filesBelow files sources.length →
    filesSorted (appendSourceLocationsLoop url prev os files sources).1 ∧
      filesBelow (appendSourceLocationsLoop url prev os files sources).1
        (appendSourceLocationsLoop url prev os files sources).2.length := by
  intro os
  induction os with
  | nil =>
    intro prev files sources hs hb
    simpa [appendSourceLocationsLoop] using ⟨hs, hb⟩
  | cons n rest ih =>
    intro prev files sources hs hb
    rw [appendSourceLocationsLoop]
    by_cases hch : n.filenameId ≠ prev.filenameId
    · rw [if_pos hch]
      refine ih n _ _ ?_ ?_
      · exact filesSorted_push _ hs hb (le_refl _)
      · refine filesBelow_push _ (filesBelow_mono hb (by simp)) (by simp)
    · rw [if_neg hch]
      refine ih n _ _ hs (filesBelow_mono hb (by simp))

/-- Skipping regions whose `fromAddress` exceeds the query offset when
the scan stops: the loop returns the accumulator when the head region
already lies past the offset. -/
theorem getFilenameGo_all_gt {files : List DebugFileRegion} {off : Nat} {acc : Option Nat}
    (h : ∀ f ∈ files, off < f.fromAddress) : getFilenameGo files off acc = acc := by
  induction files with
  | nil => rfl
  | cons f rest ih =>
    rw [getFilenameGo, if_neg (by have := h f (by simp); omega)]

theorem getFilenameGo_some (files : List DebugFileRegion) :
    ∀ (off x : Nat), ∃ y, getFilenameGo files off (some x) = some y := by
  induction files with
  | nil => intro off x; exact ⟨x, rfl⟩
  | cons f rest ih =>
    intro off x
    rw [getFilenameGo]
    by_cases hf : f.fromAddress ≤ off
    · rw [if_pos hf]
      exact ih off f.filenameId
    · rw [if_neg hf]
      exact ⟨x, rfl⟩

/-- When the table splits as regions at or before the offset, a region
`r` at or before it, and regions past it, the scan returns `r`'s
filename. -/
theorem getFilenameGo_sandwich {off : Nat} :
    ∀ (files1 : List DebugFileRegion) (r : DebugFileRegion) (files2 : List DebugFileRegion)
      (acc : Option Nat),
    (∀ f ∈ files1, f.fromAddress ≤ off) → r.fromAddress ≤ off →
    (∀ f ∈ files2, off < f.fromAddress) →
    getFilenameGo (files1 ++ r :: files2) off acc = some r.filenameId := by
  intro files1
  induction files1 with
  | nil =>
    intro r files2 acc _ hr h2
    rw [List.nil_append, getFilenameGo, if_pos hr]
    exact getFilenameGo_all_gt h2
  | cons q rest ih =>
    intro r files2 acc h1 hr h2
    rw [List.cons_append, getFilenameGo, if_pos (h1 q (by simp))]
    exact ih r files2 _ (fun f hf => h1 f (by simp [hf])) hr h2

/-- Under a sorted table, the scan yields `none` from an empty
accumulator exactly when every region starts past the offset. -/
theorem getFilenameGo_none_iff {files : List DebugFileRegion} {off : Nat}
    (hs : filesSorted files) :
    getFilenameGo files off none = none ↔ ∀ f ∈ files, off < f.fromAddress := by
  constructor
  · intro h
    induction files with
    | nil => simp
    | cons f rest ih =>
      rw [getFilenameGo] at h
      by_cases hf : f.fromAddress ≤ off
      · rw [if_pos hf] at h
        rcases getFilenameGo_some rest off f.filenameId with ⟨y, hy⟩
        rw [hy] at h
        exact absurd h (by simp)
      · intro g hg
        rcases List.mem_cons.mp hg with hg | hg
        · rw [hg]; omega
        · rw [filesSorted, List.pairwise_cons] at hs
          have := hs.1 g hg
          omega
  · exact getFilenameGo_all_gt

theorem appendSourceLocations_empty (g : DebugInfoGenerator) (start : DebugSourceLocation)
    (fi : Nat) : appendSourceLocations g start fi [] = (g, g.sourcesData.length) := by
  simp [appendSourceLocations]

/-- For a non-empty offsets list, `appendSourceLocations` appends
exactly the encoded function bytes to the sources buffer, runs the
region loop, and returns the previous size of the buffer. -/
theorem appendSourceLocations_nonempty (g : DebugInfoGenerator) (start : DebugSourceLocation)
    (fi : Nat) (offsets : List DebugSourceLocation) (h : offsets ≠ []) :
    appendSourceLocations g start fi offsets =
      ({ files := (appendSourceLocationsLoop start.sourceMappingUrlId start offsets
            (pushStartRegion g.files g.sourcesData.length start)
            (g.sourcesData ++ headerBytes fi start)).1,
         sourcesData := g.sourcesData ++ encFunc start fi offsets,
         lexicalData := g.lexicalData }, g.sourcesData.length) := by
  rw [appendSourceLocations]
  have hne : ¬ (offsets.isEmpty = true) := by simp [h]
  simp only [hne, ite_false, if_neg, loop_sources, encFunc, List.append_assoc]
  simp

theorem pushStartRegion_cases (files : List DebugFileRegion) (len : Nat)
    (start : DebugSourceLocation) (r : DebugFileRegion) (t : List DebugFileRegion)
    (h : pushStartRegion files len start = r :: t) :
    (files = [] ∧ r.fromAddress = len) ∨ (∃ t0, files = r :: t0) := by
  unfold pushStartRegion at h
  by_cases hc : files = [] ∨ (files.getLast?).map (fun f => f.filenameId) ≠ some start.filenameId
  · rw [if_pos hc] at h
    cases files with
    | nil =>
      left
      simp at h
      exact ⟨rfl, by rw [← h.1]⟩
    | cons q t0 =>
      right
      rw [List.cons_append] at h
      exact ⟨t0, by rw [(List.cons.injEq _ _ _ _).mp h |>.1]⟩
  · rw [if_neg hc] at h
    exact Or.inr ⟨t, h⟩

theorem pushStartRegion_ne_nil (files : List DebugFileRegion) (len : Nat)
    (start : DebugSourceLocation) : pushStartRegion files len start ≠ [] := by
  unfold pushStartRegion
  by_cases hc : files = [] ∨ (files.getLast?).map (fun f => f.filenameId) ≠ some start.filenameId
  · rw [if_pos hc]
    simp
  · rw [if_neg hc]
    intro habs
    exact hc (Or.inl habs)

theorem pushStartRegion_sorted {files : List DebugFileRegion} {len : Nat}
    (start : DebugSourceLocation) (hs : filesSorted files) (hb : filesBelow files len) :
    filesSorted (pushStartRegion files len start) := by
  unfold pushStartRegion
  by_cases hc : files = [] ∨ (files.getLast?).map (fun f => f.filenameId) ≠ some start.filenameId
  · rw [if_pos hc]
    exact filesSorted_push _ hs hb (le_refl _)
  · rw [if_neg hc]
    exact hs

theorem pushStartRegion_below {files : List DebugFileRegion} {len : Nat}
    (start : DebugSourceLocation) (hb : filesBelow files len) :
    filesBelow (pushStartRegion files len start) len := by
  unfold pushStartRegion
  by_cases hc : files = [] ∨ (files.getLast?).map (fun f => f.filenameId) ≠ some start.filenameId
  · rw [if_pos hc]
    exact filesBelow_push _ hb (le_refl _)
  · rw [if_neg hc]
    exact hb

theorem foldl_appendString (names : List (List Nat)) :
    ∀ buf, ∃ ext, names.foldl appendString buf = buf ++ ext := by
  induction names with
  | nil => intro buf; exact ⟨[], by simp⟩
  | cons s rest ih =>
    intro buf
    rcases ih (appendString buf s) with ⟨ext, hext⟩
    refine ⟨encodeSLEB128 (s.length : Int) ++ s ++ ext, ?_⟩
    rw [List.foldl_cons, hext, appendString]
    simp [List.append_assoc]

/-- Structural invariant of every reachable generator state: the region
table is sorted and bounded by the sources size, a region exists only
once sources bytes exist, the first region starts at offset 0, and the
lexical buffer starts with the shared empty record. -/
def GenInv (g : DebugInfoGenerator) : Prop :=
  filesSorted g.files ∧ filesBelow g.files g.sourcesData.length ∧
    (g.files = [] → g.sourcesData = []) ∧
    (∀ r t, g.files = r :: t → r.fromAddress = 0) ∧
    (∃ tail, g.lexicalData = encodeSLEB128 (-1) ++ (encodeSLEB128 0 ++ tail))

theorem reached_inv {g : DebugInfoGenerator} (h : Reached g) : GenInv g := by
  induction h with
  | base =>
    refine ⟨List.Pairwise.nil, ?_, fun _ => rfl, ?_, ⟨[], by simp [DebugInfoGenerator.base]⟩⟩
    · intro f hf
      simp [DebugInfoGenerator.base] at hf
    · intro r t habs
      simp [DebugInfoGenerator.base] at habs
  | @srcStep g0 start fi offsets hg ih =>
    rcases ih with ⟨hs, hb, hempty, hhead, htail⟩
    by_cases ho : offsets = []
    · rw [ho, appendSourceLocations_empty]
      exact ⟨hs, hb, hempty, hhead, htail⟩
    · rw [appendSourceLocations_nonempty _ _ _ _ ho]
      have hs0 := pushStartRegion_sorted start hs hb
      have hb0 : filesBelow (pushStartRegion g0.files g0.sourcesData.length start)
          (g0.sourcesData ++ headerBytes fi start).length :=
        filesBelow_mono (pushStartRegion_below start hb) (by simp)
      have hloop := loop_invariant start.sourceMappingUrlId offsets start
        (pushStartRegion g0.files g0.sourcesData.length start)
        (g0.sourcesData ++ headerBytes fi start) hs0 hb0
      rcases loop_files_append start.sourceMappingUrlId offsets start
        (pushStartRegion g0.files g0.sourcesData.length start)
        (g0.sourcesData ++ headerBytes fi start) with ⟨ext, hext⟩
      refine ⟨hloop.1, ?_, ?_, ?_, htail⟩
      · refine filesBelow_mono hloop.2 ?_
        rw [loop_sources]
        simp [encFunc]
      · intro habs
        rw [hext] at habs
        exact absurd (List.append_eq_nil.mp habs).1 (pushStartRegion_ne_nil _ _ _)
      · intro r t hrt
        rw [hext] at hrt
        cases hp : pushStartRegion g0.files g0.sourcesData.length start with
        | nil => exact absurd hp (pushStartRegion_ne_nil _ _ _)
        | cons r0 t0 =>
          rw [hp, List.cons_append] at hrt
          have hr0 : r0 = r := ((List.cons.injEq _ _ _ _).mp hrt).1
          rcases pushStartRegion_cases _ _ _ _ _ hp with ⟨hfe, hfrom⟩ | ⟨t1, hf⟩
          · rw [← hr0, hfrom, hempty hfe]
            rfl
          · exact hr0 ▸ hhead r0 t1 hf
  | @lexStep g0 parent names hg ih =>
    rcases ih with ⟨hs, hb, hempty, hhead, tail, htail⟩
    unfold appendLexicalData
    by_cases hc : parent = none ∧ names = []
    · rw [if_pos hc]
      exact ⟨hs, hb, hempty, hhead, tail, htail⟩
    · rw [if_neg hc]
      rcases foldl_appendString names (g0.lexicalData ++ encodeSLEB128 (parentIdInt parent) ++
        encodeSLEB128 (names.length : Int)) with ⟨ext, hext⟩
      refine ⟨hs, hb, hempty, hhead, ?_⟩
      refine ⟨tail ++ (encodeSLEB128 (parentIdInt parent) ++
        encodeSLEB128 (names.length : Int) ++ ext), ?_⟩
      dsimp only
      rw [hext, htail]
      simp [List.append_assoc]

/-- The decoded locations of a function's records paired with the byte
offset at which each record starts. -/
def recPairs (off : Nat) : DebugSourceLocation → List DebugSourceLocation →
    List (DebugSourceLocation × Nat)
  | _, [] => []
  | p, n :: rest => (trackedOnly n, off) :: recPairs (off + (recordBytes p n).length) n rest

/-- The reference form of the `getLocationForAddress` loop: keep the
last pair while the address does not exceed the query, stopping at the
first that does. -/
def scanLast (addr : Nat) : DebugSourceLocation × Nat → List (DebugSourceLocation × Nat) →
    DebugSourceLocation × Nat
  | acc, [] => acc
  | acc, (l, o) :: rest => if addr < l.address then acc else scanLast addr (l, o) rest

/-- The loop of `getLocationForAddress` over an encoded function body
computes `scanLast` of the decoded record pairs. -/
theorem glfaGo_enc (addr : Nat) (os : List DebugSourceLocation) :
    ∀ (fuel : Nat) (s : FDID) (pre post : List Nat) (p : DebugSourceLocation) (acc2 : Nat),
    s.data = pre ++ (encBody p os ++ (encodeSLEB128 (-1) ++ post)) →
    s.offset = pre.length →
    s.current = trackedOnly p →
    locWF p → chainWF p os →
    s.data.length - s.offset < fuel →
    glfaGo fuel s addr s.current acc2 =
      some (scanLast addr (s.current, acc2) (recPairs pre.length p os)) := by
  induction os with
  | nil =>
    intro fuel s pre post p acc2 hdata hoff hcur hwfp _ hfuel
    have hlenpos := encodeSLEB128_length_pos (-1)
    have hdlen : pre.length + (encodeSLEB128 (-1)).length ≤ s.data.length := by
      rw [hdata]
      simp [encBody]
    cases fuel with
    | zero => omega
    | succ f =>
      have hterm := FDID.next_term (s := s) pre post
        (by rw [hdata]; simp [encBody, List.append_assoc]) hoff
      rw [glfaGo]
      simp only [hterm]
      rfl
  | cons n rest ih =>
    intro fuel s pre post p acc2 hdata hoff hcur hwfp hchain hfuel
    rcases hchain with ⟨hwfn, hne, hchain⟩
    have hrecpos := recordBytes_length_pos p n
    have hdlen : pre.length + (recordBytes p n).length ≤ s.data.length := by
      rw [hdata]
      simp [encBody]
    cases fuel with
    | zero => omega
    | succ f =>
      have hstep := FDID.next_record (s := s) pre
        (encBody n rest ++ (encodeSLEB128 (-1) ++ post)) p n
        (by rw [hdata]; simp [encBody, List.append_assoc]) hoff
        (by rw [hcur]; rfl) (by rw [hcur]; rfl) (by rw [hcur]; rfl) (by rw [hcur]; rfl)
        hwfp hwfn hne
      rw [hcur, withTracked_trackedOnly] at hstep
      rw [glfaGo]
      simp only [hstep]
      rw [recPairs, scanLast]
      by_cases hlt : addr < (trackedOnly n).address
      · rw [if_pos hlt, if_pos hlt]
      · rw [if_neg hlt, if_neg hlt]
        have hih := ih f
          { s with offset := s.offset + (recordBytes p n).length, current := trackedOnly n }
          (pre ++ recordBytes p n) post n s.offset
          (by rw [hdata]; simp [encBody, List.append_assoc])
          (by simp [hoff])
          rfl hwfn hchain (by simp; omega)
        simp only [List.length_append, hoff] at hih
        rw [hoff]
        exact hih

theorem recPairs_fst (os : List DebugSourceLocation) :
    ∀ (off : Nat) (p : DebugSourceLocation),
    (recPairs off p os).map Prod.fst = os.map trackedOnly := by
  induction os with
  | nil => intro off p; rfl
  | cons n rest ih =>
    intro off p
    rw [recPairs, List.map_cons, List.map_cons, ih]

/-- Under non-decreasing addresses, the break-at-first-exceeding scan
agrees with taking the last pair whose address is at most the query. -/
theorem scanLast_eq_filter (addr : Nat) :
    ∀ (pairs : List (DebugSourceLocation × Nat)) (acc : DebugSourceLocation × Nat),
    acc.1.address ≤ addr →
    List.Pairwise (fun a b => a.1.address ≤ b.1.address) (acc :: pairs) →
    ((acc :: pairs).filter (fun q => q.1.address ≤ addr)).getLastD acc =
      scanLast addr acc pairs := by
  intro pairs
  induction pairs with
  | nil =>
    intro acc hacc _
    rw [scanLast]
    rw [List.filter_cons_of_pos (by simpa using hacc), List.filter_nil]
    rfl
  | cons q rest ih =>
    intro acc hacc hsorted
    rcases q with ⟨l, o⟩
    rw [scanLast]
    rw [List.pairwise_cons] at hsorted
    by_cases hlt : addr < l.address
    · rw [if_pos hlt]
      rw [List.filter_cons_of_pos (by simpa using hacc)]
      have hnil : ((l, o) :: rest).filter (fun q => decide (q.1.address ≤ addr)) = [] := by
        rw [List.filter_eq_nil_iff]
        intro x hx
        rcases List.mem_cons.mp hx with hx | hx
        · rw [hx]
          simp
          omega
        · have hll : l.address ≤ x.1.address := (List.pairwise_cons.mp hsorted.2).1 x hx
          simp
          omega
      rw [hnil]
      rfl
    · rw [if_neg hlt]
      have hla : l.address ≤ addr := by omega
      have hih := ih (l, o) hla hsorted.2
      rw [List.filter_cons_of_pos (by simpa using hacc)]
      rw [List.filter_cons_of_pos (by simpa using hla)] at hih ⊢
      rw [List.getLastD_cons, List.getLastD_cons]
      rw [List.getLastD_cons] at hih
      exact hih

/-- Reference form of the candidate match: first location in the list
whose line (and column, when requested) equals the target. -/
def matchIn (fi tl : Nat) (tc : Option Nat) : List DebugSourceLocation →
    Option DebugSearchResult
  | [] => none
  | l :: rest =>
    if l.line = tl ∧ (tc = none ∨ tc = some l.column) then
      some { functionIndex := fi, address := l.address, line := l.line, column := l.column }
    else matchIn fi tl tc rest

theorem trackedOnly_of_header (start : DebugSourceLocation)
    (ha : start.address = 0) (hs : start.statement = 0) :
    ({ address := 0, line := start.line, column := start.column, statement := 0,
       filenameId := 0, sourceMappingUrlId := 0 } : DebugSourceLocation) = trackedOnly start := by
  simp [trackedOnly, ha, hs]

/-- The inner loop of `getAddressForLocation` over an encoded function
body returns the first matching decoded location, and otherwise stops
past the terminator. -/
theorem galGo_enc (tl : Nat) (tc : Option Nat) (os : List DebugSourceLocation) :
    ∀ (fuel : Nat) (s : FDID) (pre post : List Nat) (p : DebugSourceLocation),
    s.data = pre ++ (encBody p os ++ (encodeSLEB128 (-1) ++ post)) →
    s.offset = pre.length →
    s.current = trackedOnly p →
    locWF p → chainWF p os →
    s.data.length - s.offset < fuel →
    ∃ off2, galGo fuel s tl tc =
        some (matchIn s.functionIndex tl tc (os.map trackedOnly), off2) ∧
      (matchIn s.functionIndex tl tc (os.map trackedOnly) = none →
        off2 = pre.length + (encBody p os).length + (encodeSLEB128 (-1)).length) := by
  induction os with
  | nil =>
    intro fuel s pre post p hdata hoff hcur hwfp _ hfuel
    have hlenpos := encodeSLEB128_length_pos (-1)
    have hdlen : pre.length + (encodeSLEB128 (-1)).length ≤ s.data.length := by
      rw [hdata]
      simp [encBody]
    cases fuel with
    | zero => omega
    | succ f =>
      have hterm := FDID.next_term (s := s) pre post
        (by rw [hdata]; simp [encBody, List.append_assoc]) hoff
      refine ⟨s.offset + (encodeSLEB128 (-1)).length, ?_, ?_⟩
      · rw [galGo]
        simp only [hterm]
        rfl
      · intro _
        rw [hoff]
        simp [encBody]
  | cons n rest ih =>
    intro fuel s pre post p hdata hoff hcur hwfp hchain hfuel
    rcases hchain with ⟨hwfn, hne, hchain⟩
    have hrecpos := recordBytes_length_pos p n
    have hdlen : pre.length + (recordBytes p n).length ≤ s.data.length := by
      rw [hdata]
      simp [encBody]
    cases fuel with
    | zero => omega
    | succ f =>
      have hstep := FDID.next_record (s := s) pre
        (encBody n rest ++ (encodeSLEB128 (-1) ++ post)) p n
        (by rw [hdata]; simp [encBody, List.append_assoc]) hoff
        (by rw [hcur]; rfl) (by rw [hcur]; rfl) (by rw [hcur]; rfl) (by rw [hcur]; rfl)
        hwfp hwfn hne
      rw [hcur, withTracked_trackedOnly] at hstep
      rw [List.map_cons]
      by_cases hmatch : (trackedOnly n).line = tl ∧ (tc = none ∨ tc = some (trackedOnly n).column)
      · refine ⟨s.offset + (recordBytes p n).length, ?_, ?_⟩
        · rw [galGo]
          simp only [hstep]
          rw [if_pos hmatch, matchIn, if_pos hmatch]
        · rw [matchIn, if_pos hmatch]
          intro habs
          exact absurd habs (by simp)
      · rcases ih f
          { s with offset := s.offset + (recordBytes p n).length, current := trackedOnly n }
          (pre ++ recordBytes p n) post n
          (by rw [hdata]; simp [encBody, List.append_assoc])
          (by simp [hoff])
          rfl hwfn hchain (by simp; omega) with ⟨off2, hgal, himp⟩
        refine ⟨off2, ?_, ?_⟩
        · rw [galGo]
          simp only [hstep]
          rw [if_neg hmatch, matchIn, if_neg hmatch]
          exact hgal
        · rw [matchIn, if_neg hmatch]
          intro hnone
          rw [himp hnone]
          simp [encBody]
          omega

/-- One function of a sources blob: its start location, function index
and subsequent locations. -/
structure FuncSpec where
  start : DebugSourceLocation
  functionIndex : Nat
  offsets : List DebugSourceLocation
deriving DecidableEq, Repr

/-- The encoded bytes of a function spec. -/
def FuncSpec.bytes (f : FuncSpec) : List Nat := encFunc f.start f.functionIndex f.offsets

/-- Well-formedness of one function: fields in `uint32_t` range, address
and statement 0 at the start, decodable address deltas. -/
def FuncSpec.wf (f : FuncSpec) : Prop :=
  locWF f.start ∧ f.start.address = 0 ∧ f.start.statement = 0 ∧
    f.functionIndex < 4294967296 ∧ chainWF f.start f.offsets

instance (f : FuncSpec) : Decidable f.wf := by
  unfold FuncSpec.wf
  infer_instance

/-- Concatenated encoding of a list of functions. -/
def encFuncs : List FuncSpec → List Nat
  | [] => []
  | f :: rest => f.bytes ++ encFuncs rest

/-- Reference search: first function (in order) containing a matching
location among its subsequent locations; headers are not candidates. -/
def specSearch (tl : Nat) (tc : Option Nat) : List FuncSpec → Option DebugSearchResult
  | [] => none
  | f :: rest =>
    match matchIn f.functionIndex tl tc (f.offsets.map trackedOnly) with
    | some r => some r
    | none => specSearch tl tc rest

theorem headerBytes_length_pos (fi : Nat) (start : DebugSourceLocation) :
    0 < (headerBytes fi start).length := by
  have := encodeSLEB128_length_pos (fi : Int)
  simp [headerBytes]
  omega

theorem encFunc_length (start : DebugSourceLocation) (fi : Nat)
    (os : List DebugSourceLocation) :
    (encFunc start fi os).length =
      (headerBytes fi start).length + (encBody start os).length +
        (encodeSLEB128 (-1)).length := by
  simp [encFunc]
  omega

theorem encFunc_length_pos (start : DebugSourceLocation) (fi : Nat)
    (os : List DebugSourceLocation) : 0 < (encFunc start fi os).length := by
  have := headerBytes_length_pos fi start
  rw [encFunc_length]
  omega

/-- The outer loop of `getAddressForLocation` over a range holding a
list of encoded functions performs the reference search. -/
theorem galOuterGo_enc (tl : Nat) (tc : Option Nat) (funcs : List FuncSpec) :
    ∀ (fuel : Nat) (pre post data : List Nat),
    data = pre ++ (encFuncs funcs ++ post) →
    (∀ f ∈ funcs, f.wf) →
    funcs.length < fuel →
    galOuterGo fuel data pre.length (pre.length + (encFuncs funcs).length) tl tc =
      specSearch tl tc funcs := by
  induction funcs with
  | nil =>
    intro fuel pre post data hdata hwf hfuel
    cases fuel with
    | zero => rfl
    | succ k =>
      rw [galOuterGo, if_neg (by simp [encFuncs])]
      rfl
  | cons f rest ih =>
    intro fuel pre post data hdata hwf hfuel
    rcases hwf f (by simp) with ⟨hwfs, ha0, hs0, hfi, hchain⟩
    rcases hwfs with ⟨hwa, hwl, hwc, hws⟩
    cases fuel with
    | zero => omega
    | succ k =>
      have hbpos := encFunc_length_pos f.start f.functionIndex f.offsets
      rw [galOuterGo, if_pos (by simp [encFuncs, FuncSpec.bytes]; omega)]
      have hinit := FDID.init_enc data pre
        (encBody f.start f.offsets ++ (encodeSLEB128 (-1) ++ (encFuncs rest ++ post)))
        f.functionIndex f.start
        (by rw [hdata]; simp [encFuncs, FuncSpec.bytes, encFunc, List.append_assoc])
        hfi hwl hwc
      simp only [hinit]
      rcases galGo_enc tl tc f.offsets (data.length + 1)
        { data := data, offset := pre.length + (headerBytes f.functionIndex f.start).length,
          functionIndex := f.functionIndex,
          current := { address := 0, line := f.start.line, column := f.start.column,
                       statement := 0, filenameId := 0, sourceMappingUrlId := 0 } }
        (pre ++ headerBytes f.functionIndex f.start) (encFuncs rest ++ post) f.start
        (by rw [hdata]; simp [encFuncs, FuncSpec.bytes, encFunc, List.append_assoc])
        (by simp)
        (trackedOnly_of_header f.start ha0 hs0)
        ⟨hwa, hwl, hwc, hws⟩ hchain (by dsimp only; omega) with ⟨off2, hgal, himp⟩
      cases hmi : matchIn f.functionIndex tl tc (f.offsets.map trackedOnly) with
      | some r =>
        simp only [hmi] at hgal
        simp only [hgal, specSearch, hmi]
      | none =>
        simp only [hmi] at hgal himp
        simp only [hgal, specSearch, hmi]
        have hoff2 : off2 = (pre ++ FuncSpec.bytes f).length := by
          rw [himp trivial]
          simp [FuncSpec.bytes, encFunc_length]
          omega
        have hend : pre.length + (encFuncs (f :: rest)).length =
            (pre ++ FuncSpec.bytes f).length + (encFuncs rest).length := by
          simp [encFuncs]
          omega
        rw [hoff2, hend]
        exact ih k (pre ++ FuncSpec.bytes f) post data
          (by rw [hdata]; simp [encFuncs, List.append_assoc])
          (fun x hx => hwf x (by simp [hx])) (by simp at hfuel ⊢; omega)

/-- The region scan finds the first region with the requested filename
and pairs its `fromAddress` with the next region's (or the given
fallback when it is last). -/
theorem findFileRangeGo_found (lexOff fid : Nat) :
    ∀ (files1 : List DebugFileRegion) (r : DebugFileRegion) (files2 : List DebugFileRegion),
    (∀ f ∈ files1, f.filenameId ≠ fid) → r.filenameId = fid →
    findFileRangeGo lexOff fid (files1 ++ r :: files2) =
      some (r.fromAddress, rangeEnd lexOff files2) := by
  intro files1
  induction files1 with
  | nil =>
    intro r files2 _ hr
    rw [List.nil_append, findFileRangeGo, if_pos hr]
  | cons q rest ih =>
    intro r files2 h1 hr
    rw [List.cons_append, findFileRangeGo, if_neg (h1 q (by simp))]
    exact ih r files2 (fun x hx => h1 x (by simp [hx])) hr

theorem findFileRangeGo_none (lexOff fid : Nat) :
    ∀ (files : List DebugFileRegion), (∀ f ∈ files, f.filenameId ≠ fid) →
    findFileRangeGo lexOff fid files = none := by
  intro files
  induction files with
  | nil => intro _; rfl
  | cons q rest ih =>
    intro h
    rw [findFileRangeGo, if_neg (h q (by simp))]
    exact ih (fun x hx => h x (by simp [hx]))

theorem serialize_lexData (g : DebugInfoGenerator) :
    (serializeWithMove g).lexData = g.lexicalData := by
  rw [serializeWithMove, DebugInfo.lexData]
  exact List.drop_left _ _

theorem serialize_files (g : DebugInfoGenerator) :
    (serializeWithMove g).files = g.files := rfl

/-- C10.  `getParentFunctionId(offset)` returns `none` exactly when the
signed LEB128 value decoded at that offset of the lexical blob is
negative — any negative value, not only the `-1` sentinel — and
otherwise returns that value converted to an unsigned 32-bit id. -/
theorem c10_parent_id_sign (d : DebugInfo) (offset : Nat) (v : Int) (n : Nat)
    (h : readSLEB128 (d.lexData.drop offset) = some (v, n)) :
    (d.getParentFunctionId offset = none ↔ v < 0) ∧
      (0 ≤ v → d.getParentFunctionId offset = some (u32ofInt v)) := by
  rw [DebugInfo.getParentFunctionId]
  simp only [h]
  by_cases hv : v < 0
  · rw [if_pos hv]
    exact ⟨Iff.intro (fun _ => hv) (fun _ => rfl), fun hge => absurd hge (by omega)⟩
  · rw [if_neg hv]
    exact ⟨Iff.intro (fun habs => absurd habs (by simp)) (fun hlt => absurd hlt hv),
      fun _ => rfl⟩

/-- Witness for C10 at a concrete lexical blob holding the encoding of
`-5` (a negative value other than `-1`). -/
theorem c10_witness :
    readSLEB128 ((DebugInfo.lexData ⟨[], 0, [123]⟩).drop 0) = some (-5, 1) ∧
      ((DebugInfo.getParentFunctionId ⟨[], 0, [123]⟩ 0 = none ↔ (-5 : Int) < 0) ∧
        (0 ≤ (-5 : Int) →
          DebugInfo.getParentFunctionId ⟨[], 0, [123]⟩ 0 = some (u32ofInt (-5)))) :=
  ⟨by decide, c10_parent_id_sign ⟨[], 0, [123]⟩ 0 (-5) 1 (by decide)⟩

/-- C8.  Every call to `appendLexicalData` with no parent and an empty
name list returns `kEmptyLexicalDataOffset` (= 0) while leaving the
generator unchanged (no bytes appended), and on any reachable state's
serialization that offset reads back as an empty variable-name list and
no parent function id. -/
theorem c8_empty_lexical :
    (∀ g : DebugInfoGenerator,
      appendLexicalData g none [] = (g, kEmptyLexicalDataOffset)) ∧
      (∀ g : DebugInfoGenerator, Reached g →
        (serializeWithMove g).getVariableNames kEmptyLexicalDataOffset = some [] ∧
          (serializeWithMove g).getParentFunctionId kEmptyLexicalDataOffset = none) := by
  constructor
  · intro g
    rw [appendLexicalData, if_pos ⟨rfl, rfl⟩]
  · intro g hg
    rcases (reached_inv hg).2.2.2.2 with ⟨tail, htail⟩
    have hlex : (serializeWithMove g).lexData =
        encodeSLEB128 (-1) ++ (encodeSLEB128 0 ++ tail) := by
      rw [serialize_lexData, htail]
    have r1 : readSLEB128 ((serializeWithMove g).lexData.drop kEmptyLexicalDataOffset) =
        some (-1, (encodeSLEB128 (-1)).length) := by
      rw [hlex, kEmptyLexicalDataOffset, List.drop_zero]
      exact readSLEB128_encode _ _
    have r2 : readSLEB128 ((serializeWithMove g).lexData.drop
        (kEmptyLexicalDataOffset + (encodeSLEB128 (-1)).length)) =
        some (0, (encodeSLEB128 0).length) := by
      rw [hlex, kEmptyLexicalDataOffset]
      rw [Nat.zero_add, drop_one]
      exact readSLEB128_encode _ _
    constructor
    · rw [DebugInfo.getVariableNames]
      simp only [r1, r2]
      rw [if_pos (by omega)]
      rfl
    · rw [DebugInfo.getParentFunctionId]
      simp only [r1]
      rw [if_pos (by omega)]

/-- Witness for C8 at the freshly constructed generator. -/
theorem c8_witness :
    appendLexicalData DebugInfoGenerator.base none [] =
        (DebugInfoGenerator.base, kEmptyLexicalDataOffset) ∧
      (serializeWithMove DebugInfoGenerator.base).getVariableNames kEmptyLexicalDataOffset =
        some [] ∧
      (serializeWithMove DebugInfoGenerator.base).getParentFunctionId kEmptyLexicalDataOffset =
        none :=
  ⟨c8_empty_lexical.1 DebugInfoGenerator.base,
    (c8_empty_lexical.2 DebugInfoGenerator.base Reached.base).1,
    (c8_empty_lexical.2 DebugInfoGenerator.base Reached.base).2⟩

def c7start : DebugSourceLocation :=
  { address := 0, line := 10, column := 5, statement := 0, filenameId := 0, sourceMappingUrlId := 0 }

def c7first : DebugSourceLocation :=
  { address := 5, line := 11, column := 1, statement := 0, filenameId := 0, sourceMappingUrlId := 0 }

def c7second : DebugSourceLocation :=
  { address := 3, line := 12, column := 2, statement := 0, filenameId := 0, sourceMappingUrlId := 0 }

/-- C7.  The address-delta slot is signed: a pair of consecutive
locations whose second address is smaller than the first round-trips
through `appendSourceLocations` and the deserializer (here addresses 5
then 3, an address delta of `-2`). -/
theorem c7_negative_delta :
    c7second.address < c7first.address ∧
      (((FDID.init
            (serializeWithMove
              (appendSourceLocations DebugInfoGenerator.base c7start 0 [c7first, c7second]).1).data
            (appendSourceLocations DebugInfoGenerator.base c7start 0 [c7first, c7second]).2).bind
          FDID.drain).map Prod.fst) = some [c7first, c7second] := by
  constructor
  · decide
  · decide

def wLoc (addr line fid : Nat) : DebugSourceLocation :=
  { address := addr, line := line, column := 1, statement := 0, filenameId := fid, sourceMappingUrlId := 0 }

/-- A reachable generator holding two functions in two distinct files. -/
def twoFileGen : DebugInfoGenerator :=
  (appendSourceLocations
    (appendSourceLocations DebugInfoGenerator.base (wLoc 0 1 0) 0 [wLoc 1 2 0]).1
    (wLoc 0 3 1) 1 [wLoc 1 4 1]).1

theorem twoFileGen_reached : Reached twoFileGen :=
  Reached.srcStep _ _ _ (Reached.srcStep _ _ _ Reached.base)

/-- C6.  The file-regions table is append-only and non-decreasing in
`fromAddress`: on every reachable generator any two indices `i < j`
satisfy `files[i].fromAddress ≤ files[j].fromAddress`; both append
operations only ever extend the table, never removing or modifying an
entry. -/
theorem c6_files_append_only_sorted :
    (∀ g : DebugInfoGenerator, Reached g →
      ∀ (i j : Nat) (hi : i < g.files.length) (hj : j < g.files.length), i < j →
        (g.files.get ⟨i, hi⟩).fromAddress ≤ (g.files.get ⟨j, hj⟩).fromAddress) ∧
      (∀ (g : DebugInfoGenerator) (start : DebugSourceLocation) (fi : Nat)
          (os : List DebugSourceLocation),
        ∃ ext, (appendSourceLocations g start fi os).1.files = g.files ++ ext) ∧
      (∀ (g : DebugInfoGenerator) (pf : Option Nat) (ns : List (List Nat)),
        (appendLexicalData g pf ns).1.files = g.files) := by
  refine ⟨?_, ?_, ?_⟩
  · intro g hg i j hi hj hij
    have hs := (reached_inv hg).1
    rw [filesSorted, List.pairwise_iff_get] at hs
    exact hs ⟨i, hi⟩ ⟨j, hj⟩ hij
  · intro g start fi os
    by_cases ho : os = []
    · rw [ho, appendSourceLocations_empty]
      exact ⟨[], by simp⟩
    · rw [appendSourceLocations_nonempty _ _ _ _ ho]
      have hpush : ∃ e1, pushStartRegion g.files g.sourcesData.length start = g.files ++ e1 := by
        unfold pushStartRegion
        by_cases hc : g.files = [] ∨
            (g.files.getLast?).map (fun f => f.filenameId) ≠ some start.filenameId
        · rw [if_pos hc]
          exact ⟨_, rfl⟩
        · rw [if_neg hc]
          exact ⟨[], by simp⟩
      rcases hpush with ⟨e1, he1⟩
      rcases loop_files_append start.sourceMappingUrlId os start
        (pushStartRegion g.files g.sourcesData.length start)
        (g.sourcesData ++ headerBytes fi start) with ⟨e2, he2⟩
      exact ⟨e1 ++ e2, by rw [he2, he1, List.append_assoc]⟩
  · intro g pf ns
    unfold appendLexicalData
    by_cases hc : pf = none ∧ ns = []
    · rw [if_pos hc]
    · rw [if_neg hc]

/-- Witness for C6 on the two-region generator. -/
theorem c6_witness :
    (twoFileGen.files.get ⟨0, by decide⟩).fromAddress ≤
        (twoFileGen.files.get ⟨1, by decide⟩).fromAddress ∧
      (∃ ext, (appendSourceLocations DebugInfoGenerator.base (wLoc 0 1 0) 0
          [wLoc 1 2 0]).1.files = DebugInfoGenerator.base.files ++ ext) ∧
      (appendLexicalData twoFileGen (some 4) [[65]]).1.files = twoFileGen.files :=
  ⟨c6_files_append_only_sorted.1 twoFileGen twoFileGen_reached 0 1 (by decide) (by decide)
      (by decide),
    c6_files_append_only_sorted.2.1 DebugInfoGenerator.base (wLoc 0 1 0) 0 [wLoc 1 2 0],
    c6_files_append_only_sorted.2.2 twoFileGen (some 4) [[65]]⟩

/-- C9.  On any reachable generator, a non-empty sources buffer forces a
non-empty region table whose first region starts at offset 0, so
`getFilenameForAddress` on the serialized blob returns a value for every
query offset (which is what makes the unchecked dereference of its
result in `populateSourceMap` safe). -/
theorem c9_sources_nonempty_filename_total (g : DebugInfoGenerator) (hg : Reached g)
    (hne : g.sourcesData ≠ []) :
    (serializeWithMove g).files ≠ [] ∧
      (∀ r t, (serializeWithMove g).files = r :: t → r.fromAddress = 0) ∧
      (∀ off : Nat, ∃ fid, (serializeWithMove g).getFilenameForAddress off = some fid) := by
  rcases reached_inv hg with ⟨_, _, hempty, hhead, -⟩
  rw [serialize_files]
  refine ⟨fun habs => hne (hempty habs), hhead, ?_⟩
  intro off
  cases hf : g.files with
  | nil => exact absurd (hempty hf) hne
  | cons r t =>
    rw [DebugInfo.getFilenameForAddress, serialize_files, hf, getFilenameGo,
      if_pos (by rw [hhead r t hf]; omega)]
    exact getFilenameGo_some t off r.filenameId

/-- Witness for C9 on the two-region generator. -/
theorem c9_witness :
    (serializeWithMove twoFileGen).files ≠ [] ∧
      (∃ fid, (serializeWithMove twoFileGen).getFilenameForAddress 3 = some fid) :=
  ⟨(c9_sources_nonempty_filename_total twoFileGen twoFileGen_reached (by decide)).1,
    (c9_sources_nonempty_filename_total twoFileGen twoFileGen_reached (by decide)).2.2 3⟩

/-- C4.  For an encoded delta record, the decoded statement equals the
previous statement iff the encoder omitted the statement-delta integer
(the record consists of exactly the three other integers) iff the tagged
line delta has its least-significant bit clear; the decoder recovers the
true line delta by a sign-preserving (floor) shift of the tagged value
by one. -/
theorem c4_statement_presence (p n : DebugSourceLocation) (s : FDID) (pre post : List Nat)
    (hdata : s.data = pre ++ recordBytes p n ++ post) (hoff : s.offset = pre.length)
    (hcur : s.current = trackedOnly p) (hwfp : locWF p) (hwfn : locWF n)
    (hne : delta32 n.address p.address ≠ -1) :
    ∃ loc s2, s.next = some (some loc, s2) ∧
      (loc.statement = p.statement ↔ recordBytes p n =
        encodeSLEB128 (delta32 n.address p.address) ++ encodeSLEB128 (taggedLineDelta p n) ++
          encodeSLEB128 (delta32 n.column p.column)) ∧
      ((recordBytes p n =
        encodeSLEB128 (delta32 n.address p.address) ++ encodeSLEB128 (taggedLineDelta p n) ++
          encodeSLEB128 (delta32 n.column p.column)) ↔ taggedLineDelta p n % 2 = 0) ∧
      taggedLineDelta p n / 2 = (n.line : Int) - (p.line : Int) ∧
      loc.line = u32add p.line (taggedLineDelta p n / 2) := by
  have hstep := FDID.next_record pre post p n hdata hoff
    (by rw [hcur]; rfl) (by rw [hcur]; rfl) (by rw [hcur]; rfl) (by rw [hcur]; rfl)
    hwfp hwfn hne
  have homit : sdeltaOf p n = 0 ↔ recordBytes p n =
      encodeSLEB128 (delta32 n.address p.address) ++ encodeSLEB128 (taggedLineDelta p n) ++
        encodeSLEB128 (delta32 n.column p.column) := by
    constructor
    · intro hz
      rw [recordBytes, if_neg (by simp [hz])]
      simp
    · intro heq
      by_contra hnz
      rw [recordBytes, if_pos hnz] at heq
      have hlen := congrArg List.length heq
      simp only [List.length_append] at hlen
      have := encodeSLEB128_length_pos (sdeltaOf p n)
      omega
  have hstmt : (s.current.withTracked n).statement = p.statement ↔ sdeltaOf p n = 0 := by
    have h1 : (s.current.withTracked n).statement = n.statement := rfl
    rw [h1, sdeltaOf, delta32_eq_zero_iff n.statement p.statement hwfn.2.2.2 hwfp.2.2.2]
  have hparity : sdeltaOf p n = 0 ↔ taggedLineDelta p n % 2 = 0 := by
    have hp := taggedLineDelta_parity p n
    have hcases : taggedLineDelta p n % 2 = 0 ∨ taggedLineDelta p n % 2 = 1 := by omega
    constructor
    · intro hz
      rcases hcases with hc | hc
      · exact hc
      · exact absurd hz (hp.mp hc)
    · intro hz
      by_contra hnz
      have := hp.mpr hnz
      omega
  refine ⟨s.current.withTracked n, _, hstep, ?_, ?_, taggedLineDelta_ediv p n, ?_⟩
  · rw [hstmt, homit]
  · rw [← homit, hparity]
  · have h2 : (s.current.withTracked n).line = n.line := rfl
    rw [h2, taggedLineDelta_ediv, u32add_sub p.line n.line hwfn.2.1]

def c4prev : DebugSourceLocation :=
  { address := 0, line := 10, column := 5, statement := 0, filenameId := 0, sourceMappingUrlId := 0 }

def c4next : DebugSourceLocation :=
  { address := 3, line := 10, column := 9, statement := 1, filenameId := 0, sourceMappingUrlId := 0 }

/-- Witness for C4 on the record of spec scenario 2. -/
theorem c4_witness :
    ∃ loc s2,
      FDID.next ⟨recordBytes c4prev c4next, 0, 0, trackedOnly c4prev⟩ = some (some loc, s2) ∧
      (loc.statement = c4prev.statement ↔ recordBytes c4prev c4next =
        encodeSLEB128 (delta32 c4next.address c4prev.address) ++
          encodeSLEB128 (taggedLineDelta c4prev c4next) ++
          encodeSLEB128 (delta32 c4next.column c4prev.column)) ∧
      ((recordBytes c4prev c4next =
        encodeSLEB128 (delta32 c4next.address c4prev.address) ++
          encodeSLEB128 (taggedLineDelta c4prev c4next) ++
          encodeSLEB128 (delta32 c4next.column c4prev.column)) ↔
        taggedLineDelta c4prev c4next % 2 = 0) ∧
      taggedLineDelta c4prev c4next / 2 = (c4next.line : Int) - (c4prev.line : Int) ∧
      loc.line = u32add c4prev.line (taggedLineDelta c4prev c4next / 2) :=
  c4_statement_presence c4prev c4next ⟨recordBytes c4prev c4next, 0, 0, trackedOnly c4prev⟩
    [] [] (by simp) rfl rfl (by decide) (by decide) (by decide)

/-- C5.  When a subsequent location's filename differs from the
previously emitted one, the loop pushes a region whose `fromAddress` is
the current size of the sources buffer — the byte offset of that
location's first encoded byte — carrying the start location's url id
(first conjunct, fully general; the second conjunct instantiates it for
a call with a single subsequent location, showing the pushed region
explicitly).  On the serialized result, `getFilenameForAddress` returns
the earlier filename strictly before that offset and the new filename at
or after it (third and fourth conjuncts). -/
theorem c5_filename_change_region (g : DebugInfoGenerator) (hg : Reached g)
    (start next : DebugSourceLocation) (fi : Nat)
    (hneq : next.filenameId ≠ start.filenameId) :
    (∀ (prev nx : DebugSourceLocation) (rest : List DebugSourceLocation) (url : Nat)
        (files : List DebugFileRegion) (sources : List Nat), nx.filenameId ≠ prev.filenameId →
      appendSourceLocationsLoop url prev (nx :: rest) files sources =
        appendSourceLocationsLoop url nx rest
          (files ++ [{ fromAddress := sources.length, filenameId := nx.filenameId, sourceMappingUrlId := url }])
          (sources ++ recordBytes prev nx)) ∧
    (appendSourceLocations g start fi [next]).1.files =
      pushStartRegion g.files g.sourcesData.length start ++
        [{ fromAddress := g.sourcesData.length + (headerBytes fi start).length, filenameId := next.filenameId, sourceMappingUrlId := start.sourceMappingUrlId }] ∧
    (∀ q, (appendSourceLocations g start fi [next]).2 ≤ q →
        q < g.sourcesData.length + (headerBytes fi start).length →
        (serializeWithMove (appendSourceLocations g start fi [next]).1).getFilenameForAddress q =
          some start.filenameId) ∧
    (∀ q, g.sourcesData.length + (headerBytes fi start).length ≤ q →
        (serializeWithMove (appendSourceLocations g start fi [next]).1).getFilenameForAddress q =
          some next.filenameId) := by
  rcases reached_inv hg with ⟨hs, hb, hempty, hhead, -⟩
  have hstep : ∀ (prev nx : DebugSourceLocation) (rest : List DebugSourceLocation) (url : Nat)
      (files : List DebugFileRegion) (sources : List Nat), nx.filenameId ≠ prev.filenameId →
      appendSourceLocationsLoop url prev (nx :: rest) files sources =
        appendSourceLocationsLoop url nx rest
          (files ++ [{ fromAddress := sources.length, filenameId := nx.filenameId, sourceMappingUrlId := url }])
          (sources ++ recordBytes prev nx) := by
    intro prev nx rest url files sources hch
    rw [appendSourceLocationsLoop]
    rw [if_pos hch]
  have hret : (appendSourceLocations g start fi [next]).2 = g.sourcesData.length := by
    rw [appendSourceLocations_nonempty g start fi [next] (by simp)]
  have hfiles : (appendSourceLocations g start fi [next]).1.files =
      pushStartRegion g.files g.sourcesData.length start ++
        [{ fromAddress := g.sourcesData.length + (headerBytes fi start).length, filenameId := next.filenameId, sourceMappingUrlId := start.sourceMappingUrlId }] := by
    rw [appendSourceLocations_nonempty g start fi [next] (by simp)]
    dsimp only
    rw [hstep start next [] start.sourceMappingUrlId _ _ hneq]
    rw [appendSourceLocationsLoop]
    simp [List.length_append]
  refine ⟨hstep, hfiles, ?_, ?_⟩
  · intro q hq1 hq2
    rw [hret] at hq1
    rw [DebugInfo.getFilenameForAddress, serialize_files, hfiles]
    unfold pushStartRegion
    by_cases hc : g.files = [] ∨
        (g.files.getLast?).map (fun f => f.filenameId) ≠ some start.filenameId
    · rw [if_pos hc]
      rw [List.append_assoc]
      refine getFilenameGo_sandwich g.files
        { fromAddress := g.sourcesData.length, filenameId := start.filenameId, sourceMappingUrlId := start.sourceMappingUrlId }
        _ none (fun f hf => le_trans (hb f hf) hq1) hq1 ?_
      intro f hf
      simp at hf
      rw [hf]
      exact hq2
    · rw [if_neg hc]
      push_neg at hc
      obtain ⟨hnz, hlast⟩ := hc
      have hsplit := List.dropLast_append_getLast hnz
      rw [← hsplit, List.append_assoc]
      have hlf : (g.files.getLast hnz).filenameId = start.filenameId := by
        rw [List.getLast?_eq_getLast g.files hnz] at hlast
        simpa using hlast
      rw [← hlf]
      refine getFilenameGo_sandwich g.files.dropLast (g.files.getLast hnz) _ none
        (fun f hf => le_trans (hb f (List.dropLast_subset _ hf)) hq1)
        (le_trans (hb _ (List.getLast_mem hnz)) hq1) ?_
      intro f hf
      simp at hf
      rw [hf]
      exact hq2
  · intro q hq
    rw [DebugInfo.getFilenameForAddress, serialize_files, hfiles]
    have hq0 : g.sourcesData.length ≤ q := by
      have := headerBytes_length_pos fi start
      omega
    refine getFilenameGo_sandwich (pushStartRegion g.files g.sourcesData.length start)
      { fromAddress := g.sourcesData.length + (headerBytes fi start).length, filenameId := next.filenameId, sourceMappingUrlId := start.sourceMappingUrlId }
      [] none
      (fun f hf => le_trans (pushStartRegion_below start hb f hf) hq0) hq
      (fun f hf => absurd hf (List.not_mem_nil f))

/-- Witness for C5: base generator, file change from 0 to 1; the header
occupies bytes 0 to 2, the region for the new file starts at byte 3. -/
theorem c5_witness :
    (appendSourceLocations DebugInfoGenerator.base (wLoc 0 1 0) 0 [wLoc 1 2 1]).1.files =
        pushStartRegion DebugInfoGenerator.base.files
            DebugInfoGenerator.base.sourcesData.length (wLoc 0 1 0) ++
          [{ fromAddress := DebugInfoGenerator.base.sourcesData.length + (headerBytes 0 (wLoc 0 1 0)).length, filenameId := (wLoc 1 2 1).filenameId, sourceMappingUrlId := (wLoc 0 1 0).sourceMappingUrlId }] ∧
      (serializeWithMove (appendSourceLocations DebugInfoGenerator.base (wLoc 0 1 0) 0
          [wLoc 1 2 1]).1).getFilenameForAddress 2 = some (wLoc 0 1 0).filenameId ∧
      (serializeWithMove (appendSourceLocations DebugInfoGenerator.base (wLoc 0 1 0) 0
          [wLoc 1 2 1]).1).getFilenameForAddress 3 = some (wLoc 1 2 1).filenameId :=
  ⟨(c5_filename_change_region DebugInfoGenerator.base Reached.base (wLoc 0 1 0) (wLoc 1 2 1) 0
      (by decide)).2.1,
    (c5_filename_change_region DebugInfoGenerator.base Reached.base (wLoc 0 1 0) (wLoc 1 2 1) 0
      (by decide)).2.2.1 2 (by decide) (by decide),
    (c5_filename_change_region DebugInfoGenerator.base Reached.base (wLoc 0 1 0) (wLoc 1 2 1) 0
      (by decide)).2.2.2 3 (by decide)⟩

def c1L0 : DebugSourceLocation :=
  { address := 0, line := 10, column := 4, statement := 0, filenameId := 7, sourceMappingUrlId := 0 }

def c1L1 : DebugSourceLocation :=
  { address := 6, line := 10, column := 8, statement := 0, filenameId := 7, sourceMappingUrlId := 0 }

/-- Counterexample to C1 as stated: for the two-location list
`[c1L0, c1L1]` (statement 0 at the start, non-decreasing addresses), the
decoded header is not equal to `c1L0` — not even with its address and
statement zeroed — and the first `next()` result is not equal to `c1L1`:
the location stream does not carry `filenameId`, so the decoded
locations have `filenameId = 0`, not 7. -/
theorem c1_counterexample :
    c1L0.statement = 0 ∧ c1L0.address ≤ c1L1.address ∧ c1L0.address = 0 ∧
      ((FDID.init (serializeWithMove (appendSourceLocations DebugInfoGenerator.base c1L0 0
            [c1L1]).1).data
          (appendSourceLocations DebugInfoGenerator.base c1L0 0 [c1L1]).2).map
        (fun s => s.current) ≠ some c1L0) ∧
      (((FDID.init (serializeWithMove (appendSourceLocations DebugInfoGenerator.base c1L0 0
            [c1L1]).1).data
          (appendSourceLocations DebugInfoGenerator.base c1L0 0 [c1L1]).2).bind
        FDID.drain).map Prod.fst ≠ some [c1L1]) := by
  refine ⟨rfl, by decide, rfl, by decide, by decide⟩

/-- C1 (amended).  For a list of at least two well-formed locations with
start address and statement 0 and non-decreasing addresses, encoding on
any reachable generator and decoding from the returned offset yields a
header whose tracked fields equal the start location (decoded
`filenameId` and `sourceMappingUrlId` are 0), and draining `next()`
yields exactly the subsequent locations, again in the four tracked
fields, before returning none at the terminator. -/
theorem c1_round_trip_amended (g : DebugInfoGenerator) (hg : Reached g)
    (start : DebugSourceLocation) (fi : Nat) (offsets : List DebugSourceLocation)
    (hwf : locWF start) (ha0 : start.address = 0) (hs0 : start.statement = 0)
    (hfi : fi < 4294967296) (hchain : chainWF start offsets)
    (hsorted : List.Pairwise (fun a b => a ≤ b) ((start :: offsets).map (fun l => l.address)))
    (hne : offsets ≠ []) :
    ∃ s0 s1,
      FDID.init (serializeWithMove (appendSourceLocations g start fi offsets).1).data
          (appendSourceLocations g start fi offsets).2 = some s0 ∧
        s0.current = trackedOnly start ∧ s0.functionIndex = fi ∧
        s0.drain = some (offsets.map trackedOnly, s1) := by
  rw [appendSourceLocations_nonempty g start fi offsets hne]
  dsimp only [serializeWithMove]
  have hinit := FDID.init_enc
    ((g.sourcesData ++ encFunc start fi offsets) ++ g.lexicalData) g.sourcesData
    (encBody start offsets ++ (encodeSLEB128 (-1) ++ g.lexicalData)) fi start
    (by simp [encFunc, List.append_assoc]) hfi hwf.2.1 hwf.2.2.1
  have hdrain := drainGo_enc offsets
    (((g.sourcesData ++ encFunc start fi offsets) ++ g.lexicalData).length + 1)
    { data := (g.sourcesData ++ encFunc start fi offsets) ++ g.lexicalData,
      offset := g.sourcesData.length + (headerBytes fi start).length,
      functionIndex := fi,
      current := { address := 0, line := start.line, column := start.column, statement := 0, filenameId := 0, sourceMappingUrlId := 0 } }
    (g.sourcesData ++ headerBytes fi start) g.lexicalData start
    (by simp [encFunc, List.append_assoc])
    (by simp)
    (trackedOnly_of_header start ha0 hs0)
    hwf hchain (by dsimp only; omega)
  obtain ⟨s1, hd⟩ : ∃ s1, drainGo
      (((g.sourcesData ++ encFunc start fi offsets) ++ g.lexicalData).length + 1)
      { data := (g.sourcesData ++ encFunc start fi offsets) ++ g.lexicalData,
        offset := g.sourcesData.length + (headerBytes fi start).length,
        functionIndex := fi,
        current := { address := 0, line := start.line, column := start.column, statement := 0, filenameId := 0, sourceMappingUrlId := 0 } } =
      some (offsets.map trackedOnly, s1) := ⟨_, hdrain⟩
  exact ⟨_, s1, hinit, trackedOnly_of_header start ha0 hs0, rfl, by rw [FDID.drain]; exact hd⟩

/-- Witness for the amended C1 on the base generator with the
two-location list of spec scenario 2. -/
theorem c1_witness :
    ∃ s0 s1,
      FDID.init (serializeWithMove (appendSourceLocations DebugInfoGenerator.base c4prev 0
            [c4next]).1).data
          (appendSourceLocations DebugInfoGenerator.base c4prev 0 [c4next]).2 = some s0 ∧
        s0.current = trackedOnly c4prev ∧ s0.functionIndex = 0 ∧
        s0.drain = some ([c4next].map trackedOnly, s1) :=
  c1_round_trip_amended DebugInfoGenerator.base Reached.base c4prev 0 [c4next]
    (by decide) rfl rfl (by decide) (by decide) (by decide) (by decide)

/-- The decoded locations of a function paired with the byte offsets of
their records, headed by the header location at the function's own
offset. -/
def locPairs (fnOff fi : Nat) (start : DebugSourceLocation)
    (os : List DebugSourceLocation) : List (DebugSourceLocation × Nat) :=
  (trackedOnly start, fnOff) :: recPairs (fnOff + (headerBytes fi start).length) start os

/-- The pair retained by the `getLocationForAddress` loop: the last
decoded location whose address is at most the query, with the byte
offset of its record; the header (at the function's offset) is the
fallback. -/
def bestPair (fnOff fi : Nat) (start : DebugSourceLocation)
    (os : List DebugSourceLocation) (addr : Nat) : DebugSourceLocation × Nat :=
  ((locPairs fnOff fi start os).filter (fun q => q.1.address ≤ addr)).getLastD
    (trackedOnly start, fnOff)

/-- C2.  On a well-formed blob, `getLocationForAddress(fnOff, addr)`
takes the last decoded location whose address is at most `addr` (the
header as fallback), resolves the filename by the byte offset of that
location's record — not by `fnOff` — overwrites the result's address
with `addr` and its `filenameId` with the resolved filename, and returns
`none` exactly when no file region starts at or before that record's
byte offset. -/
theorem c2_get_location_for_address (files : List DebugFileRegion) (lexOff : Nat)
    (pre post : List Nat) (start : DebugSourceLocation) (fi : Nat)
    (offsets : List DebugSourceLocation) (addr : Nat)
    (hwf : locWF start) (ha0 : start.address = 0) (hs0 : start.statement = 0)
    (hfi : fi < 4294967296) (hchain : chainWF start offsets)
    (hsorted : List.Pairwise (fun a b => a ≤ b) ((start :: offsets).map (fun l => l.address)))
    (hfsorted : filesSorted files) :
    (DebugInfo.getLocationForAddress ⟨files, lexOff, pre ++ (encFunc start fi offsets ++ post)⟩
        pre.length addr =
      (match getFilenameGo files (bestPair pre.length fi start offsets addr).2 none with
       | none => none
       | some f => some { (bestPair pre.length fi start offsets addr).1 with address := addr, filenameId := f })) ∧
    (DebugInfo.getLocationForAddress ⟨files, lexOff, pre ++ (encFunc start fi offsets ++ post)⟩
        pre.length addr = none ↔
      ∀ r ∈ files, (bestPair pre.length fi start offsets addr).2 < r.fromAddress) := by
  have hcur0 := trackedOnly_of_header start ha0 hs0
  have hinit := FDID.init_enc (pre ++ (encFunc start fi offsets ++ post)) pre
    (encBody start offsets ++ (encodeSLEB128 (-1) ++ post)) fi start
    (by simp [encFunc, List.append_assoc]) hfi hwf.2.1 hwf.2.2.1
  have hglfa := glfaGo_enc addr offsets
    ((pre ++ (encFunc start fi offsets ++ post)).length + 1)
    { data := pre ++ (encFunc start fi offsets ++ post),
      offset := pre.length + (headerBytes fi start).length,
      functionIndex := fi,
      current := { address := 0, line := start.line, column := start.column, statement := 0, filenameId := 0, sourceMappingUrlId := 0 } }
    (pre ++ headerBytes fi start) post start pre.length
    (by simp [encFunc, List.append_assoc])
    (by simp)
    hcur0 hwf hchain (by dsimp only; omega)
  have hos : List.Pairwise (fun a b : DebugSourceLocation => a.address ≤ b.address)
      (start :: offsets) := List.pairwise_map.mp hsorted
  have hpairs : List.Pairwise (fun a b : DebugSourceLocation × Nat => a.1.address ≤ b.1.address)
      (recPairs (pre.length + (headerBytes fi start).length) start offsets) := by
    have h1 : ((recPairs (pre.length + (headerBytes fi start).length) start offsets).map
        Prod.fst).Pairwise (fun a b : DebugSourceLocation => a.address ≤ b.address) := by
      rw [recPairs_fst, List.pairwise_map]
      exact ((List.pairwise_cons.mp hos).2).imp
        (fun h => by simpa [trackedOnly_address] using h)
    exact (List.pairwise_map (f := Prod.fst)).mp h1
  have hheadle : ∀ x ∈ recPairs (pre.length + (headerBytes fi start).length) start offsets,
      (trackedOnly start).address ≤ x.1.address := by
    intro x hx
    have hx1 : x.1 ∈ (recPairs (pre.length + (headerBytes fi start).length) start offsets).map
        Prod.fst := List.mem_map_of_mem _ hx
    rw [recPairs_fst] at hx1
    rcases List.mem_map.mp hx1 with ⟨y, hy, hxy⟩
    have hle := (List.pairwise_cons.mp hos).1 y hy
    rw [trackedOnly_address, ← hxy, trackedOnly_address]
    exact hle
  have hpw : List.Pairwise (fun a b : DebugSourceLocation × Nat => a.1.address ≤ b.1.address)
      ((trackedOnly start, pre.length) ::
        recPairs (pre.length + (headerBytes fi start).length) start offsets) :=
    List.pairwise_cons.mpr ⟨fun x hx => hheadle x hx, hpairs⟩
  have hacc : (trackedOnly start, pre.length).1.address ≤ addr := by
    rw [trackedOnly_address, ha0]
    exact Nat.zero_le addr
  have hbest : scanLast addr
      ({ address := 0, line := start.line, column := start.column, statement := 0, filenameId := 0, sourceMappingUrlId := 0 }, pre.length)
      (recPairs (pre ++ headerBytes fi start).length start offsets) =
      bestPair pre.length fi start offsets addr := by
    rw [hcur0, show (pre ++ headerBytes fi start).length =
      pre.length + (headerBytes fi start).length from by simp]
    rw [bestPair, locPairs]
    exact (scanLast_eq_filter addr _ _ hacc hpw).symm
  have hmain : DebugInfo.getLocationForAddress
      ⟨files, lexOff, pre ++ (encFunc start fi offsets ++ post)⟩ pre.length addr =
      (match getFilenameGo files (bestPair pre.length fi start offsets addr).2 none with
       | none => none
       | some f => some { (bestPair pre.length fi start offsets addr).1 with address := addr, filenameId := f }) := by
    rw [DebugInfo.getLocationForAddress]
    simp only [hinit, hglfa, hbest]
    rfl
  refine ⟨hmain, ?_⟩
  rw [hmain, ← getFilenameGo_none_iff hfsorted]
  cases hgf : getFilenameGo files (bestPair pre.length fi start offsets addr).2 none with
  | none => simp
  | some f => simp

/-- Witness for C2: one function in file 7, query address 2 between the
two recorded locations. -/
theorem c2_witness :
    (DebugInfo.getLocationForAddress
        ⟨[⟨0, 7, 0⟩], 8, [] ++ (encFunc c4prev 0 [c4next] ++ [127, 0])⟩ 0 2 =
      (match getFilenameGo [⟨0, 7, 0⟩] (bestPair 0 0 c4prev [c4next] 2).2 none with
       | none => none
       | some f => some { (bestPair 0 0 c4prev [c4next] 2).1 with address := 2, filenameId := f })) ∧
    (DebugInfo.getLocationForAddress
        ⟨[⟨0, 7, 0⟩], 8, [] ++ (encFunc c4prev 0 [c4next] ++ [127, 0])⟩ 0 2 = none ↔
      ∀ r ∈ [(⟨0, 7, 0⟩ : DebugFileRegion)], (bestPair 0 0 c4prev [c4next] 2).2 < r.fromAddress) :=
  c2_get_location_for_address [⟨0, 7, 0⟩] 8 [] [127, 0] c4prev 0 [c4next] 2
    (by decide) rfl rfl (by decide) (by decide) (by decide)
    (by rw [filesSorted]; exact List.pairwise_singleton _ _)

theorem encFuncs_length_ge (funcs : List FuncSpec) :
    funcs.length ≤ (encFuncs funcs).length := by
  induction funcs with
  | nil => simp [encFuncs]
  | cons f rest ih =>
    have := encFunc_length_pos f.start f.functionIndex f.offsets
    simp [encFuncs, FuncSpec.bytes]
    omega

/-- C3.  `getAddressForLocation` scans the regions for the first whose
filename matches, taking its `fromAddress` as the range start and the
next region's `fromAddress` (or `lexicalDataOffset` when it is last) as
the range end (first conjunct); it returns `none` when no region has the
filename (second conjunct); over a range holding encoded functions it
iterates deserializers and returns the first location produced by
`next()` — headers are never candidates — whose line matches the target
and, when a target column is given, whose column matches it, or `none`
when no candidate matches (third conjunct, via `specSearch`). -/
theorem c3_get_address_for_location :
    (∀ (lexOff fid : Nat) (files1 : List DebugFileRegion) (r : DebugFileRegion)
        (files2 : List DebugFileRegion),
      (∀ f ∈ files1, f.filenameId ≠ fid) → r.filenameId = fid →
      findFileRangeGo lexOff fid (files1 ++ r :: files2) =
        some (r.fromAddress, rangeEnd lexOff files2)) ∧
    (∀ (d : DebugInfo) (fid tl : Nat) (tc : Option Nat),
      (∀ f ∈ d.files, f.filenameId ≠ fid) → d.getAddressForLocation fid tl tc = none) ∧
    (∀ (funcs : List FuncSpec) (pre post : List Nat) (d : DebugInfo) (fid tl : Nat)
        (tc : Option Nat),
      d.data = pre ++ (encFuncs funcs ++ post) →
      (∀ f ∈ funcs, f.wf) →
      findFileRangeGo d.lexicalDataOffset fid d.files =
        some (pre.length, pre.length + (encFuncs funcs).length) →
      d.getAddressForLocation fid tl tc = specSearch tl tc funcs) := by
  refine ⟨findFileRangeGo_found, ?_, ?_⟩
  · intro d fid tl tc h
    rw [DebugInfo.getAddressForLocation]
    simp only [findFileRangeGo_none _ _ _ h]
  · intro funcs pre post d fid tl tc hdata hwf hrange
    rw [DebugInfo.getAddressForLocation]
    simp only [hrange]
    have hle := encFuncs_length_ge funcs
    exact galOuterGo_enc tl tc funcs (pre.length + (encFuncs funcs).length + 1) pre post
      d.data hdata hwf (by omega)

def c3func : FuncSpec := { start := c4prev, functionIndex := 0, offsets := [c4next] }

/-- Witness for C3: one encoded function in file 7, searching line 10
column 9 (spec scenario 5), plus the none case for an absent file. -/
theorem c3_witness :
    (DebugInfo.getAddressForLocation
        ⟨[⟨0, 7, 0⟩], (encFuncs [c3func]).length, [] ++ (encFuncs [c3func] ++ [127, 0])⟩
        7 10 (some 9) = specSearch 10 (some 9) [c3func]) ∧
      (DebugInfo.getAddressForLocation
        ⟨[⟨0, 7, 0⟩], (encFuncs [c3func]).length, [] ++ (encFuncs [c3func] ++ [127, 0])⟩
        9 10 none = none) :=
  ⟨c3_get_address_for_location.2.2 [c3func] [] [127, 0]
      ⟨[⟨0, 7, 0⟩], (encFuncs [c3func]).length, [] ++ (encFuncs [c3func] ++ [127, 0])⟩
      7 10 (some 9) rfl (by decide) (by decide),
    c3_get_address_for_location.2.1
      ⟨[⟨0, 7, 0⟩], (encFuncs [c3func]).length, [] ++ (encFuncs [c3func] ++ [127, 0])⟩
      9 10 none (by decide)⟩

end HermesDebug
